import Mathlib

/-!
Verification development for the hyper-ray-tracer rendering engine.

The Rust sources are shallowly embedded: f32 scalars become exact rationals
(rounding is an idealization; the properties proved here are ordering and
structural properties that are insensitive to monotone rounding), except where
IEEE-754 infinities and NaNs are semantically relevant (division by a zero
direction component in the AABB slab test and in Rect intersection), where the
extended type `Fx` below models them. Stochastic inputs (random draws) and
irrational intermediate values (square roots, sines) become explicit
parameters of the embedded functions. Panics are modeled by Option results.
-/

set_option maxRecDepth 10000

/-- Triple of scalars, used as point, direction and color; src/math.rs (Vec3). -/
structure Vec3 where
  x : ℚ
  y : ℚ
  z : ℚ
deriving DecidableEq, Repr

/-- Coordinate access, modelling the Index impl used as v[a]. -/
def Vec3.nth (v : Vec3) : Fin 3 → ℚ
  | 0 => v.x
  | 1 => v.y
  | 2 => v.z

/-- Component-wise addition. -/
def Vec3.add (a b : Vec3) : Vec3 := ⟨a.x + b.x, a.y + b.y, a.z + b.z⟩

/-- Component-wise subtraction. -/
def Vec3.sub (a b : Vec3) : Vec3 := ⟨a.x - b.x, a.y - b.y, a.z - b.z⟩

/-- Negation. -/
def Vec3.neg (a : Vec3) : Vec3 := ⟨-a.x, -a.y, -a.z⟩

/-- Scalar multiplication. -/
def Vec3.smul (s : ℚ) (a : Vec3) : Vec3 := ⟨s * a.x, s * a.y, s * a.z⟩

/-- Scalar division (cgmath v / s). -/
def Vec3.sdiv (a : Vec3) (s : ℚ) : Vec3 := ⟨a.x / s, a.y / s, a.z / s⟩

/-- Dot product. -/
def Vec3.dot (a b : Vec3) : ℚ := a.x * b.x + a.y * b.y + a.z * b.z

/-- Component-wise product (cgmath mul_element_wise), used by the integrator. -/
def Vec3.mulE (a b : Vec3) : Vec3 := ⟨a.x * b.x, a.y * b.y, a.z * b.z⟩

/-- A ray with origin, direction and a time value; src/ray.rs. -/
structure Ray where
  origin : Vec3
  direction : Vec3
  time : ℚ
deriving DecidableEq, Repr

/-- Ray::at, origin + t * direction. -/
def Ray.at (r : Ray) (t : ℚ) : Vec3 := r.origin.add (Vec3.smul t r.direction)

/-- Result of an intersection; src/hit_record.rs together with the u,v fields
used by src/hittable/sphere.rs and src/application.rs. The borrowed material
reference is modelled by an identity tag `mat`, resolved through a material
environment where behaviour is needed. -/
structure HitRecord where
  point : Vec3
  normal : Vec3
  t : ℚ
  u : ℚ
  v : ℚ
  frontFace : Bool
  mat : ℕ
deriving DecidableEq, Repr

/-- HitRecord::set_face_normal, src/hit_record.rs lines 21-28: front_face is
true when the ray direction opposes the outward normal, and the stored normal
is flipped to point against the ray. -/
def HitRecord.setFaceNormal (rec : HitRecord) (ray : Ray) (outward : Vec3) : HitRecord :=
  let ff := ray.direction.dot outward < 0
  { rec with frontFace := ff, normal := if ff then outward else outward.neg }

/-! ## Extended scalars with IEEE-754 infinities and NaN

The slab test divides by direction components and the Rect intersection
divides by a direction component; in f32 these produce infinities and NaNs
whose comparison semantics matter. `Fx` models a finite value exactly as a
rational plus the three special values. The model identifies positive and
negative zero (1/0 is taken to be positive infinity, the positive-zero
convention). -/
inductive Fx where
  | fin (q : ℚ)
  | inf
  | ninf
  | nan
deriving DecidableEq, Repr

/-- IEEE-style strict less-than: any comparison with NaN is false. -/
def fxLt : Fx → Fx → Bool
  | Fx.nan, _ => false
  | _, Fx.nan => false
  | Fx.fin a, Fx.fin b => decide (a < b)
  | Fx.fin _, Fx.inf => true
  | Fx.fin _, Fx.ninf => false
  | Fx.inf, _ => false
  | Fx.ninf, Fx.ninf => false
  | Fx.ninf, _ => true

/-- IEEE-style less-or-equal: any comparison with NaN is false. -/
def fxLe : Fx → Fx → Bool
  | Fx.nan, _ => false
  | _, Fx.nan => false
  | Fx.fin a, Fx.fin b => decide (a ≤ b)
  | Fx.fin _, Fx.inf => true
  | Fx.fin _, Fx.ninf => false
  | Fx.inf, Fx.inf => true
  | Fx.inf, _ => false
  | Fx.ninf, _ => true

/-- IEEE-style addition on the extended scalars. -/
def fxAdd : Fx → Fx → Fx
  | Fx.nan, _ => Fx.nan
  | _, Fx.nan => Fx.nan
  | Fx.fin a, Fx.fin b => Fx.fin (a + b)
  | Fx.fin _, Fx.inf => Fx.inf
  | Fx.fin _, Fx.ninf => Fx.ninf
  | Fx.inf, Fx.fin _ => Fx.inf
  | Fx.inf, Fx.inf => Fx.inf
  | Fx.inf, Fx.ninf => Fx.nan
  | Fx.ninf, Fx.fin _ => Fx.ninf
  | Fx.ninf, Fx.inf => Fx.nan
  | Fx.ninf, Fx.ninf => Fx.ninf

/-- IEEE-style multiplication: zero times an infinity is NaN. -/
def fxMul : Fx → Fx → Fx
  | Fx.nan, _ => Fx.nan
  | _, Fx.nan => Fx.nan
  | Fx.fin a, Fx.fin b => Fx.fin (a * b)
  | Fx.fin a, Fx.inf => if a > 0 then Fx.inf else if a < 0 then Fx.ninf else Fx.nan
  | Fx.fin a, Fx.ninf => if a > 0 then Fx.ninf else if a < 0 then Fx.inf else Fx.nan
  | Fx.inf, Fx.fin b => if b > 0 then Fx.inf else if b < 0 then Fx.ninf else Fx.nan
  | Fx.ninf, Fx.fin b => if b > 0 then Fx.ninf else if b < 0 then Fx.inf else Fx.nan
  | Fx.inf, Fx.inf => Fx.inf
  | Fx.inf, Fx.ninf => Fx.ninf
  | Fx.ninf, Fx.inf => Fx.ninf
  | Fx.ninf, Fx.ninf => Fx.inf

/-- IEEE-style division: a nonzero finite value divided by zero gives an
infinity (positive-zero convention for the sign), and 0/0 gives NaN. -/
def fxDiv : Fx → Fx → Fx
  | Fx.nan, _ => Fx.nan
  | _, Fx.nan => Fx.nan
  | Fx.fin a, Fx.fin b =>
      if b = 0 then (if a > 0 then Fx.inf else if a < 0 then Fx.ninf else Fx.nan)
      else Fx.fin (a / b)
  | Fx.fin _, Fx.inf => Fx.fin 0
  | Fx.fin _, Fx.ninf => Fx.fin 0
  | Fx.inf, Fx.fin b => if b < 0 then Fx.ninf else Fx.inf
  | Fx.ninf, Fx.fin b => if b < 0 then Fx.inf else Fx.ninf
  | Fx.inf, _ => Fx.nan
  | Fx.ninf, _ => Fx.nan

/-! ## AABB, src/aabb.rs -/

/-- Axis-aligned bounding box; src/aabb.rs. -/
structure Aabb where
  minimum : Vec3
  maximum : Vec3
deriving DecidableEq, Repr

/-- The body of one iteration of the loop in Aabb::hit (src/aabb.rs lines
21-44) for axis a: the per-axis slab test. The loop returns false as soon as
one axis fails, so Aabb::hit is the conjunction of the three tests. -/
def Aabb.axisTest (box : Aabb) (ray : Ray) (tmin tmax : ℚ) (a : Fin 3) : Bool :=
  let inv := fxDiv (Fx.fin 1) (Fx.fin (ray.direction.nth a))
  let ts0 := fxMul (Fx.fin (box.minimum.nth a - ray.origin.nth a)) inv
  let te0 := fxMul (Fx.fin (box.maximum.nth a - ray.origin.nth a)) inv
  let ts := if fxLt inv (Fx.fin 0) then te0 else ts0
  let te := if fxLt inv (Fx.fin 0) then ts0 else te0
  let lo := if fxLt (Fx.fin tmin) ts then ts else Fx.fin tmin
  let hi := if fxLt te (Fx.fin tmax) then te else Fx.fin tmax
  !(fxLe hi lo)

/-- Aabb::hit, src/aabb.rs lines 20-47: slab test over the three axes in
order, equal to the conjunction of the per-axis tests since the loop
early-returns false on the first failing axis. -/
def Aabb.hit (box : Aabb) (ray : Ray) (tmin tmax : ℚ) : Bool :=
  (([0, 1, 2] : List (Fin 3))).all (box.axisTest ray tmin tmax)

/-- Aabb::hit with the per-axis tests run in an arbitrary order. -/
def Aabb.hitOrder (box : Aabb) (ray : Ray) (tmin tmax : ℚ) (order : List (Fin 3)) : Bool :=
  order.all (box.axisTest ray tmin tmax)

/-- Aabb::surrounding_box, src/aabb.rs lines 49-63: component-wise min of the
minima and max of the maxima. -/
def Aabb.surroundingBox (b0 b1 : Aabb) : Aabb :=
  { minimum := ⟨min b0.minimum.x b1.minimum.x, min b0.minimum.y b1.minimum.y,
               min b0.minimum.z b1.minimum.z⟩
    maximum := ⟨max b0.maximum.x b1.maximum.x, max b0.maximum.y b1.maximum.y,
               max b0.maximum.z b1.maximum.z⟩ }

/-- Box a is contained in box b, component-wise. -/
def Aabb.contained (a b : Aabb) : Prop :=
  (∀ i : Fin 3, b.minimum.nth i ≤ a.minimum.nth i) ∧
  (∀ i : Fin 3, a.maximum.nth i ≤ b.maximum.nth i)

/-! ## C5: slab-test axis order and interval monotonicity -/

/-- Helper: the clamp-and-compare step of one slab axis, as a function of the
already-computed (order-independent) entry and exit values s, e. -/
def slabPass (s e : Fx) (tmin tmax : ℚ) : Bool :=
  !(fxLe (if fxLt e (Fx.fin tmax) then e else Fx.fin tmax)
         (if fxLt (Fx.fin tmin) s then s else Fx.fin tmin))

lemma axisTest_eq_slabPass (box : Aabb) (ray : Ray) (tmin tmax : ℚ) (a : Fin 3) :
    box.axisTest ray tmin tmax a =
      slabPass
        (if fxLt (fxDiv (Fx.fin 1) (Fx.fin (ray.direction.nth a))) (Fx.fin 0)
         then fxMul (Fx.fin (box.maximum.nth a - ray.origin.nth a))
                (fxDiv (Fx.fin 1) (Fx.fin (ray.direction.nth a)))
         else fxMul (Fx.fin (box.minimum.nth a - ray.origin.nth a))
                (fxDiv (Fx.fin 1) (Fx.fin (ray.direction.nth a))))
        (if fxLt (fxDiv (Fx.fin 1) (Fx.fin (ray.direction.nth a))) (Fx.fin 0)
         then fxMul (Fx.fin (box.minimum.nth a - ray.origin.nth a))
                (fxDiv (Fx.fin 1) (Fx.fin (ray.direction.nth a)))
         else fxMul (Fx.fin (box.maximum.nth a - ray.origin.nth a))
                (fxDiv (Fx.fin 1) (Fx.fin (ray.direction.nth a))))
        tmin tmax := rfl

lemma slabPass_mono (s e : Fx) (tmin tmax tmin' tmax' : ℚ)
    (h1 : tmin' ≤ tmin) (h2 : tmax ≤ tmax')
    (h : slabPass s e tmin tmax = true) : slabPass s e tmin' tmax' = true := by
  cases s <;> cases e <;>
    simp only [slabPass, fxLt, fxLe, Bool.not_eq_true', decide_eq_true_eq,
      decide_eq_false_iff_not] at h ⊢ <;>
    (try split_ifs at h ⊢) <;>
    simp_all only [decide_eq_true_eq, decide_eq_false_iff_not, not_lt, not_le,
      Bool.not_true, Bool.not_false, Bool.true_eq_false, Bool.false_eq_true] <;>
    try linarith

lemma axisTest_mono (box : Aabb) (ray : Ray) (tmin tmax tmin' tmax' : ℚ) (a : Fin 3)
    (h1 : tmin' ≤ tmin) (h2 : tmax ≤ tmax')
    (h : box.axisTest ray tmin tmax a = true) : box.axisTest ray tmin' tmax' a = true := by
  rw [axisTest_eq_slabPass] at h ⊢
  exact slabPass_mono _ _ _ _ _ _ h1 h2 h

lemma list_all_perm {α : Type} {l l' : List α} (h : l.Perm l') (f : α → Bool) :
    l.all f = l'.all f := by
  cases hb : l'.all f
  · cases hc : l.all f
    · rfl
    · exfalso
      rw [List.all_eq_true] at hc
      rw [Bool.eq_false_iff, Ne, List.all_eq_true] at hb
      exact hb fun x hx => hc x (h.mem_iff.mpr hx)
  · rw [List.all_eq_true] at hb ⊢
    exact fun x hx => hb x (h.mem_iff.mp hx)

/-- C5 (amended). Aabb::hit is invariant under permutation of the order in
which the three per-axis slab tests run; and the result is monotone under
widening of the query interval in the direction opposite to the one claimed:
a true result stays true when the interval is widened (equivalently, a false
result stays false when the interval is narrowed). Widening an interval on
which the test is false can turn it true, see the counterexample. -/
theorem aabb_hit_order_invariant_and_widen_true :
    (∀ (box : Aabb) (ray : Ray) (tmin tmax : ℚ) (order : List (Fin 3)),
       order.Perm [0, 1, 2] → box.hitOrder ray tmin tmax order = box.hit ray tmin tmax) ∧
    (∀ (box : Aabb) (ray : Ray) (tmin tmax tmin' tmax' : ℚ),
       tmin' ≤ tmin → tmax ≤ tmax' →
       box.hit ray tmin tmax = true → box.hit ray tmin' tmax' = true) := by
  constructor
  · intro box ray tmin tmax order hperm
    exact list_all_perm hperm _
  · intro box ray tmin tmax tmin' tmax' h1 h2 h
    simp only [Aabb.hit, List.all_eq_true] at h ⊢
    exact fun a ha => axisTest_mono box ray tmin tmax tmin' tmax' a h1 h2 (h a ha)

/-- Concrete box and ray for the C5 counterexample: the box spans [1,2] on
every axis and the ray starts at the origin with direction (1,1,1), so the
slab interval is [1,2] on each axis. -/
def cexBox : Aabb := { minimum := ⟨1, 1, 1⟩, maximum := ⟨2, 2, 2⟩ }

/-- Ray used in the C5 counterexample. -/
def cexRay : Ray := { origin := ⟨0, 0, 0⟩, direction := ⟨1, 1, 1⟩, time := 0 }

/-- C5 counterexample: the slab test returns false on the interval [3,4], yet
moving t_min further down to 0 (a wider interval) turns it true, refuting the
claim that widening the interval can never turn a false result true. -/
theorem aabb_hit_false_not_preserved_by_widening :
    cexBox.hit cexRay 3 4 = false ∧ (0 : ℚ) ≤ 3 ∧ (4 : ℚ) ≤ 4 ∧
      cexBox.hit cexRay 0 4 = true := by
  refine ⟨?_, by norm_num, le_refl _, ?_⟩ <;>
    norm_num [Aabb.hit, Aabb.axisTest, Vec3.nth, fxDiv, fxMul, fxLt, fxLe, cexBox, cexRay]

/-- C5 witness: the amended theorem applied at a concrete permuted order and
at a concrete widened interval. -/
theorem aabb_hit_order_invariant_and_widen_true_apply :
    cexBox.hitOrder cexRay 0 4 [2, 0, 1] = cexBox.hit cexRay 0 4 ∧
      cexBox.hit cexRay (-1) 5 = true :=
  ⟨aabb_hit_order_invariant_and_widen_true.1 cexBox cexRay 0 4 [2, 0, 1] (by decide),
   aabb_hit_order_invariant_and_widen_true.2 cexBox cexRay 0 4 (-1) 5 (by norm_num)
     (by norm_num)
     (by norm_num [Aabb.hit, Aabb.axisTest, Vec3.nth, fxDiv, fxMul, fxLt, fxLe, cexBox, cexRay])⟩

/-! ## C8: surrounding_box containment and minimality -/

/-- C8: surrounding_box(A,B) contains both A and B, and it is minimal along
each axis: every box containing both A and B contains the surrounding box, so
no box containing both is strictly tighter on any axis. -/
theorem surroundingBox_contains_and_minimal :
    ∀ b0 b1 : Aabb,
      (Aabb.contained b0 (Aabb.surroundingBox b0 b1) ∧
       Aabb.contained b1 (Aabb.surroundingBox b0 b1)) ∧
      (∀ c : Aabb, Aabb.contained b0 c → Aabb.contained b1 c →
         Aabb.contained (Aabb.surroundingBox b0 b1) c) := by
  intro b0 b1
  refine ⟨⟨⟨?_, ?_⟩, ⟨?_, ?_⟩⟩, ?_⟩
  · intro i; fin_cases i <;>
      simp [Aabb.surroundingBox, Vec3.nth, min_le_left]
  · intro i; fin_cases i <;>
      simp [Aabb.surroundingBox, Vec3.nth, le_max_left]
  · intro i; fin_cases i <;>
      simp [Aabb.surroundingBox, Vec3.nth, min_le_right]
  · intro i; fin_cases i <;>
      simp [Aabb.surroundingBox, Vec3.nth, le_max_right]
  · intro c hc0 hc1
    refine ⟨fun i => ?_, fun i => ?_⟩
    · have h0 := hc0.1 i
      have h1 := hc1.1 i
      fin_cases i <;> simp [Aabb.surroundingBox, Vec3.nth] at h0 h1 ⊢ <;> exact ⟨h0, h1⟩
    · have h0 := hc0.2 i
      have h1 := hc1.2 i
      fin_cases i <;> simp [Aabb.surroundingBox, Vec3.nth] at h0 h1 ⊢ <;> exact ⟨h0, h1⟩

/-- C8 witness: minimality evaluated at two concrete boxes and a concrete
enclosing box. -/
theorem surroundingBox_contains_and_minimal_apply :
    Aabb.contained (Aabb.surroundingBox cexBox ⟨⟨0, 0, 0⟩, ⟨1, 1, 1⟩⟩)
      ⟨⟨-1, -1, -1⟩, ⟨3, 3, 3⟩⟩ :=
  (surroundingBox_contains_and_minimal cexBox ⟨⟨0, 0, 0⟩, ⟨1, 1, 1⟩⟩).2
    ⟨⟨-1, -1, -1⟩, ⟨3, 3, 3⟩⟩
    (by refine ⟨fun i => ?_, fun i => ?_⟩ <;> fin_cases i <;> norm_num [Vec3.nth, cexBox])
    (by refine ⟨fun i => ?_, fun i => ?_⟩ <;> fin_cases i <;> norm_num [Vec3.nth, cexBox])

/-! ## C1: the path-tracing integrator, Application::ray_color -/

/-- The Material trait (src/materials/mod.rs): scatter and emitted. -/
structure RTMaterial where
  scatter : Ray → HitRecord → Option (Vec3 × Ray)
  emitted : ℚ → ℚ → Vec3 → Vec3

lemma Vec3.add_comm (a b : Vec3) : a.add b = b.add a := by
  cases a; cases b; simp [Vec3.add]; refine ⟨by ring, by ring, by ring⟩

/-- Application::ray_color, src/application.rs lines 479-497. The world is the
hit function of the root Hittable trait object; materials are resolved through
the environment env from the identity tag carried by the hit record. The f32
literal 0.001 is idealized as the rational 1/1000, and f32::INFINITY is the
extended value Fx.inf. -/
def rayColor (world : Ray → Fx → Fx → Option HitRecord) (env : ℕ → RTMaterial)
    (background : Vec3) : Ray → ℕ → Vec3
  | _, 0 => ⟨0, 0, 0⟩
  | ray, d + 1 =>
    match world ray (Fx.fin (1/1000)) Fx.inf with
    | none => background
    | some rec =>
      let m := env rec.mat
      let emitted := m.emitted rec.u rec.v rec.point
      match m.scatter ray rec with
      | none => emitted
      | some (attenuation, scattered) =>
        (attenuation.mulE (rayColor world env background scattered d)).add emitted

/-- C1: ray_color returns black at depth 0; otherwise it queries the world
over (0.001, infinity) and returns the background on a miss, exactly the
emitted color when the material does not scatter, and emitted plus the
component-wise product of the attenuation with the recursive color at depth
one less when it does. -/
theorem ray_color_cases :
    ∀ (world : Ray → Fx → Fx → Option HitRecord) (env : ℕ → RTMaterial)
      (background : Vec3) (ray : Ray) (d : ℕ),
      (rayColor world env background ray 0 = ⟨0, 0, 0⟩) ∧
      (0 < d → world ray (Fx.fin (1/1000)) Fx.inf = none →
        rayColor world env background ray d = background) ∧
      (∀ rec, 0 < d → world ray (Fx.fin (1/1000)) Fx.inf = some rec →
        (env rec.mat).scatter ray rec = none →
        rayColor world env background ray d =
          (env rec.mat).emitted rec.u rec.v rec.point) ∧
      (∀ rec attenuation scattered, 0 < d →
        world ray (Fx.fin (1/1000)) Fx.inf = some rec →
        (env rec.mat).scatter ray rec = some (attenuation, scattered) →
        rayColor world env background ray d =
          ((env rec.mat).emitted rec.u rec.v rec.point).add
            (attenuation.mulE (rayColor world env background scattered (d - 1)))) := by
  intro world env background ray d
  refine ⟨rfl, ?_, ?_, ?_⟩
  · intro hd hmiss
    obtain ⟨k, rfl⟩ := Nat.exists_eq_add_of_lt hd
    simp only [rayColor, hmiss]
  · intro rec hd hhit hscat
    obtain ⟨k, rfl⟩ := Nat.exists_eq_add_of_lt hd
    simp only [rayColor, hhit, hscat]
  · intro rec attenuation scattered hd hhit hscat
    obtain ⟨k, rfl⟩ := Nat.exists_eq_add_of_lt hd
    simp only [rayColor, hhit, hscat, Nat.add_sub_cancel, Nat.zero_add]
    exact Vec3.add_comm _ _

/-- C1 witness: the depth-0 and miss cases evaluated on a concrete empty
world. -/
theorem ray_color_cases_apply :
    rayColor (fun _ _ _ => none) (fun _ => ⟨fun _ _ => none, fun _ _ _ => ⟨0, 0, 0⟩⟩)
        ⟨7, 8, 9⟩ ⟨⟨0, 0, 0⟩, ⟨1, 0, 0⟩, 0⟩ 5 = ⟨7, 8, 9⟩ :=
  (ray_color_cases (fun _ _ _ => none)
      (fun _ => ⟨fun _ _ => none, fun _ _ _ => ⟨0, 0, 0⟩⟩)
      ⟨7, 8, 9⟩ ⟨⟨0, 0, 0⟩, ⟨1, 0, 0⟩, 0⟩ 5).2.1 (by norm_num) rfl

/-! ## C4: the shared tile-completion counter

src/application.rs lines 471-472 update the shared AtomicU32 with a load
followed by a separate store of the incremented value; the two atomic
operations of each task can interleave with other tasks. The model below
makes each task a two-step program (load the counter into a local, then store
local + 1) and executes an explicit schedule of task indices. -/

/-- Program counter of one tile task's counter-update code. -/
inductive TaskPc where
  | ready
  | loaded (v : ℕ)
  | finished
deriving DecidableEq, Repr

/-- Shared counter plus the per-task program counters. -/
structure SchedState where
  counter : ℕ
  tasks : List TaskPc
deriving DecidableEq, Repr

/-- One atomic step of task i: a ready task performs
tile_counter.load(Ordering::SeqCst); a task that has loaded v performs
tile_counter.store(v + 1, Ordering::SeqCst) and finishes. -/
def schedStep (s : SchedState) (i : ℕ) : SchedState :=
  match s.tasks.get? i with
  | some TaskPc.ready => { s with tasks := s.tasks.set i (TaskPc.loaded s.counter) }
  | some (TaskPc.loaded v) => { counter := v + 1, tasks := s.tasks.set i TaskPc.finished }
  | _ => s

/-- Run a schedule, a list of task indices naming which task steps next. -/
def schedRun (s : SchedState) : List ℕ → SchedState
  | [] => s
  | i :: rest => schedRun (schedStep s i) rest

/-- Initial state for n tile tasks: counter 0, every task ready. -/
def schedInit (n : ℕ) : SchedState := ⟨0, List.replicate n TaskPc.ready⟩

/-- C4: evaluation of the code at the failing interleaving. With N = 2 tiles,
the schedule load(A); load(B); store(A); store(B) completes both tasks yet
leaves the shared counter at 1, not 2: the load/store pair is not an atomic
increment, so an increment is lost, refuting the claim for this interleaving.
The fully sequential schedule does reach 2. -/
theorem tile_counter_lost_update :
    ((schedRun (schedInit 2) [0, 1, 0, 1]).tasks.all fun t => t == TaskPc.finished) = true ∧
    (schedRun (schedInit 2) [0, 1, 0, 1]).counter = 1 ∧
    ¬((schedRun (schedInit 2) [0, 1, 0, 1]).counter = 2) ∧
    (schedRun (schedInit 2) [0, 0, 1, 1]).counter = 2 := by decide

/-! ## C3: the tiled scheduler's last-column width

Application::handle_resize computes tile_x_count = ceil(width / tile_size) in
f32 (src/application.rs lines 365-366), and each tile task computes the last
column's width as ((w/ts) - floor(w/ts)) * ts in f32, truncated to u32
(src/application.rs lines 418-424). The f32 arithmetic is modeled exactly:
`rnd` rounds a rational to the nearest binary32 value (round half to even,
24-bit significand, unbounded exponent range; every quantity in this claim is
well inside the normal range so neither overflow nor subnormals arise). -/

/-- Round a rational to the nearest integer, ties to even. -/
def roundHalfEven (x : ℚ) : ℤ :=
  let f := ⌊x⌋
  let r := x - (f : ℚ)
  if r < 1/2 then f else if 1/2 < r then f + 1 else if 2 ∣ f then f else f + 1

/-- Round a rational to the nearest binary32 value: scale the significand into
the 24-bit window determined by the binary logarithm and round half to even. -/
def rnd (q : ℚ) : ℚ :=
  if q = 0 then 0
  else
    (if q < 0 then -1 else 1) *
      (roundHalfEven (|q| * (2:ℚ) ^ ((23:ℤ) - Int.log 2 |q|)) : ℚ) *
      (2:ℚ) ^ (Int.log 2 |q| - 23)

lemma intLog_unique {r : ℚ} {e : ℤ} (h1 : (2:ℚ) ^ e ≤ r) (h2 : r < (2:ℚ) ^ (e + 1)) :
    Int.log 2 r = e := by
  have hr : 0 < r := lt_of_lt_of_le (by positivity) h1
  have hL1 := Int.zpow_log_le_self (b := 2) (R := ℚ) (by norm_num) hr
  have hL2 := Int.lt_zpow_succ_log_self (b := 2) (R := ℚ) (by norm_num) r
  have b1 : Int.log 2 r < e + 1 :=
    (zpow_lt_zpow_iff_right₀ (by norm_num : (1:ℚ) < 2)).mp (lt_of_le_of_lt hL1 h2)
  have b2 : e < Int.log 2 r + 1 :=
    (zpow_lt_zpow_iff_right₀ (by norm_num : (1:ℚ) < 2)).mp (lt_of_le_of_lt h1 hL2)
  omega

lemma rnd_pos_eval {q : ℚ} {e M : ℤ} (h0 : 0 < q)
    (h1 : (2:ℚ) ^ e ≤ q) (h2 : q < (2:ℚ) ^ (e + 1))
    (hM : roundHalfEven (q * (2:ℚ) ^ ((23:ℤ) - e)) = M) :
    rnd q = (M : ℚ) * (2:ℚ) ^ (e - 23) := by
  rw [rnd, if_neg (ne_of_gt h0), if_neg (not_lt.mpr h0.le), abs_of_pos h0,
    intLog_unique h1 h2, hM]
  ring

/-- Last-column tile width as computed by the tile task: when tile_size does
not divide the width, take the f32 quotient w/ts, subtract its floor, multiply
back by tile_size and truncate to u32; otherwise the full tile_size. -/
def tileLastWidth (w ts : ℕ) : ℕ :=
  if w % ts ≠ 0 then
    let q := rnd (rnd (w:ℚ) / rnd (ts:ℚ))
    let fr := rnd (q - (⌊q⌋ : ℚ))
    (⌊rnd (fr * rnd (ts:ℚ))⌋).toNat
  else ts

/-- Number of tile columns: ceil of the f32 quotient, cast to u32;
Application::handle_resize. -/
def tileXCount (w ts : ℕ) : ℕ := (⌈rnd (rnd (w:ℚ) / rnd (ts:ℚ))⌉).toNat

lemma rnd_five : rnd (5:ℚ) = 5 := by
  have := rnd_pos_eval (q := 5) (e := 2) (M := 10485760) (by norm_num) (by norm_num)
    (by norm_num) (by norm_num [roundHalfEven])
  rw [this]; norm_num

lemma rnd_three : rnd (3:ℚ) = 3 := by
  have := rnd_pos_eval (q := 3) (e := 1) (M := 12582912) (by norm_num) (by norm_num)
    (by norm_num) (by norm_num [roundHalfEven])
  rw [this]; norm_num

lemma rnd_seven : rnd (7:ℚ) = 7 := by
  have := rnd_pos_eval (q := 7) (e := 2) (M := 14680064) (by norm_num) (by norm_num)
    (by norm_num) (by norm_num [roundHalfEven])
  rw [this]; norm_num

lemma rnd_five_thirds : rnd ((5:ℚ)/3) = 13981013/8388608 := by
  have := rnd_pos_eval (q := 5/3) (e := 0) (M := 13981013) (by norm_num) (by norm_num)
    (by norm_num) (by norm_num [roundHalfEven])
  rw [this]; norm_num

lemma rnd_frac53 : rnd ((5592405:ℚ)/8388608) = 5592405/8388608 := by
  have := rnd_pos_eval (q := 5592405/8388608) (e := -1) (M := 11184810) (by norm_num)
    (by norm_num) (by norm_num) (by norm_num [roundHalfEven])
  rw [this]; norm_num

lemma rnd_prod53 : rnd ((16777215:ℚ)/8388608) = 16777215/8388608 := by
  have := rnd_pos_eval (q := 16777215/8388608) (e := 0) (M := 16777215) (by norm_num)
    (by norm_num) (by norm_num) (by norm_num [roundHalfEven])
  rw [this]; norm_num

lemma rnd_seven_thirds : rnd ((7:ℚ)/3) = 9786709/4194304 := by
  have := rnd_pos_eval (q := 7/3) (e := 1) (M := 9786709) (by norm_num) (by norm_num)
    (by norm_num) (by norm_num [roundHalfEven])
  rw [this]; norm_num

lemma rnd_frac73 : rnd ((1398101:ℚ)/4194304) = 1398101/4194304 := by
  have := rnd_pos_eval (q := 1398101/4194304) (e := -2) (M := 11184808) (by norm_num)
    (by norm_num) (by norm_num) (by norm_num [roundHalfEven])
  rw [this]; norm_num

lemma rnd_prod73 : rnd ((4194303:ℚ)/4194304) = 4194303/4194304 := by
  have := rnd_pos_eval (q := 4194303/4194304) (e := -1) (M := 16777212) (by norm_num)
    (by norm_num) (by norm_num) (by norm_num [roundHalfEven])
  rw [this]; norm_num

/-- C3: evaluation of the code at the failing inputs. At width 5, tile_size 3
the f32 fractional formula yields a last-column width of 1 while exact tiling
requires width - tile_size * (tile_x_count - 1) = 2, so one pixel column is
covered by no tile; at width 7, tile_size 3 it even yields a zero-width tile
where 1 is required. -/
theorem tile_last_width_f32_mismatch :
    tileLastWidth 5 3 = 1 ∧ tileXCount 5 3 = 2 ∧ 5 - 3 * (tileXCount 5 3 - 1) = 2 ∧
      tileLastWidth 7 3 = 0 := by
  have hq5 : rnd (rnd ((5:ℕ):ℚ) / rnd ((3:ℕ):ℚ)) = 13981013/8388608 := by
    rw [show (((5:ℕ)):ℚ) = (5:ℚ) by norm_num, show (((3:ℕ)):ℚ) = (3:ℚ) by norm_num,
      rnd_five, rnd_three, rnd_five_thirds]
  have hcount5 : tileXCount 5 3 = 2 := by
    have hceil : ⌈(13981013/8388608 : ℚ)⌉ = 2 := by
      rw [Int.ceil_eq_iff] <;> norm_num
    rw [tileXCount, hq5, hceil]
    rfl
  have hfloor5 : (⌊(13981013/8388608 : ℚ)⌋ : ℚ) = 1 := by norm_num
  have hw5 : tileLastWidth 5 3 = 1 := by
    rw [tileLastWidth, if_pos (by norm_num)]
    simp only [hq5, hfloor5]
    rw [show (13981013/8388608 - 1 : ℚ) = 5592405/8388608 by norm_num, rnd_frac53,
      show (((3:ℕ)):ℚ) = (3:ℚ) by norm_num, rnd_three,
      show ((5592405:ℚ)/8388608 * 3) = 16777215/8388608 by norm_num, rnd_prod53]
    norm_num
  have hq7 : rnd (rnd ((7:ℕ):ℚ) / rnd ((3:ℕ):ℚ)) = 9786709/4194304 := by
    rw [show (((7:ℕ)):ℚ) = (7:ℚ) by norm_num, show (((3:ℕ)):ℚ) = (3:ℚ) by norm_num,
      rnd_seven, rnd_three, rnd_seven_thirds]
  have hfloor7 : (⌊(9786709/4194304 : ℚ)⌋ : ℚ) = 2 := by norm_num
  have hw7 : tileLastWidth 7 3 = 0 := by
    rw [tileLastWidth, if_pos (by norm_num)]
    simp only [hq7, hfloor7]
    rw [show (9786709/4194304 - 2 : ℚ) = 1398101/4194304 by norm_num, rnd_frac73,
      show (((3:ℕ)):ℚ) = (3:ℚ) by norm_num, rnd_three,
      show ((1398101:ℚ)/4194304 * 3) = 4194303/4194304 by norm_num, rnd_prod73]
    norm_num
  exact ⟨hw5, hcount5, by rw [hcount5], hw7⟩

/-! ## C6: Dielectric::scatter with index of refraction 1

src/materials/dielectric.rs lines 31-55 and src/math.rs lines 47-62. f32::sqrt
is modeled by an explicit parameter sq; the random draw rand.gen by the
parameter xi; powf(5.0) by the fifth power. -/

/-- math::reflect. -/
def reflect (v n : Vec3) : Vec3 := v.sub (Vec3.smul (2 * v.dot n) n)

/-- math::refract; sq models f32::sqrt. -/
def refract (sq : ℚ → ℚ) (uv n : Vec3) (etaiOverEtat : ℚ) : Vec3 :=
  let cosTheta := min ((uv.neg).dot n) 1
  let rPerp := Vec3.smul etaiOverEtat (uv.add (Vec3.smul cosTheta n))
  let rPar := Vec3.smul (-(sq |1 - rPerp.dot rPerp|)) n
  rPerp.add rPar

/-- math::reflectance, Schlick approximation; powf(5.0) modeled as the fifth
power. -/
def reflectance (cosine refractionIndex : ℚ) : ℚ :=
  ((1 - refractionIndex) / (1 + refractionIndex)) ^ 2 +
    (1 - ((1 - refractionIndex) / (1 + refractionIndex)) ^ 2) * (1 - cosine) ^ 5

/-- Dielectric::scatter; sq models f32::sqrt (also inside normalize), xi the
random draw compared against the Schlick reflectance. -/
def dielectricScatter (sq : ℚ → ℚ) (ior : ℚ) (ray : Ray) (rec : HitRecord) (xi : ℚ) :
    Option (Vec3 × Ray) :=
  let refractionRatio := if rec.frontFace then 1 / ior else ior
  let unitDirection := ray.direction.sdiv (sq (ray.direction.dot ray.direction))
  let cosTheta := min ((unitDirection.neg).dot rec.normal) 1
  let sinTheta := sq (1 - cosTheta * cosTheta)
  let direction :=
    if refractionRatio * sinTheta > 1 ∨ reflectance cosTheta refractionRatio > xi then
      reflect unitDirection rec.normal
    else
      refract sq unitDirection rec.normal refractionRatio
  some (⟨1, 1, 1⟩, ⟨rec.point, direction, ray.time⟩)

lemma Vec3.neg_dot (a b : Vec3) : (a.neg).dot b = -(a.dot b) := by
  cases a; cases b; simp [Vec3.neg, Vec3.dot]; ring

lemma Vec3.add_smul_self_dot (u d : Vec3) (c : ℚ) :
    (u.add (Vec3.smul c d)).dot (u.add (Vec3.smul c d)) =
      u.dot u + 2 * c * u.dot d + c ^ 2 * d.dot d := by
  cases u; cases d; simp [Vec3.add, Vec3.smul, Vec3.dot]; ring

/-- C6 (amended): Dielectric::scatter always returns Some with attenuation
(1,1,1) and a ray from the hit point at the incoming time; and with
index_of_refraction = 1, whenever the Schlick draw does not select reflection
(reflectance (1-cos)^5 at most the random value xi), the scattered direction
is exactly the normalized incoming direction, i.e. straight through.
Hypotheses supply the exactness of the sqrt parameter at the three points it
is evaluated and the validity of the hit (unit, opposing normal). With
probability (1-cos)^5 the code instead reflects, see the counterexample. -/
theorem dielectric_ior_one_straight :
    (∀ (sq : ℚ → ℚ) (ior : ℚ) (ray : Ray) (rec : HitRecord) (xi : ℚ), ∃ dir,
       dielectricScatter sq ior ray rec xi = some (⟨1, 1, 1⟩, ⟨rec.point, dir, ray.time⟩)) ∧
    (∀ (sq : ℚ → ℚ) (ray : Ray) (rec : HitRecord) (xi : ℚ) (u : Vec3) (c0 : ℚ),
       u = ray.direction.sdiv (sq (ray.direction.dot ray.direction)) →
       u.dot u = 1 →
       rec.normal.dot rec.normal = 1 →
       c0 = (u.neg).dot rec.normal →
       0 ≤ c0 → c0 ≤ 1 →
       sq (1 - c0 * c0) ≤ 1 →
       sq (c0 * c0) = c0 →
       reflectance c0 1 ≤ xi →
       dielectricScatter sq 1 ray rec xi = some (⟨1, 1, 1⟩, ⟨rec.point, u, ray.time⟩)) := by
  constructor
  · intro sq ior ray rec xi
    exact ⟨_, rfl⟩
  · intro sq ray rec xi u c0 hu huu hnn hc0 h0 h1 hsin hsq hxi
    have hratio : (if rec.frontFace then 1 / (1:ℚ) else 1) = 1 := by
      cases rec.frontFace <;> norm_num
    have hmin : min ((u.neg).dot rec.normal) 1 = c0 := by
      rw [← hc0]; exact min_eq_left h1
    have hun : u.dot rec.normal = -c0 := by
      have := Vec3.neg_dot u rec.normal
      rw [this] at hc0; linarith
    have hperp : (u.add (Vec3.smul c0 rec.normal)).dot (u.add (Vec3.smul c0 rec.normal)) =
        1 - c0 * c0 := by
      rw [Vec3.add_smul_self_dot, huu, hnn, hun]; ring
    have habs : |1 - (1 - c0 * c0)| = c0 * c0 := by
      rw [show (1 - (1 - c0 * c0) : ℚ) = c0 * c0 by ring]
      exact abs_of_nonneg (mul_self_nonneg c0)
    have hcond : ¬((if rec.frontFace then 1 / (1:ℚ) else 1) *
        sq (1 - min ((u.neg).dot rec.normal) 1 * min ((u.neg).dot rec.normal) 1) > 1 ∨
        reflectance (min ((u.neg).dot rec.normal) 1)
          (if rec.frontFace then 1 / (1:ℚ) else 1) > xi) := by
      rw [hratio, hmin]
      push_neg
      exact ⟨by linarith [hsin], by linarith [hxi]⟩
    rw [dielectricScatter, ← hu]
    rw [if_neg hcond]
    have hone : ∀ v : Vec3, Vec3.smul 1 v = v := by
      intro v; cases v; simp [Vec3.smul]
    simp only [refract, hratio, hmin, hone, hperp, habs, hsq, Option.some.injEq,
      Prod.mk.injEq, Ray.mk.injEq, true_and, and_true]
    cases u; cases rec.normal
    simp [Vec3.add, Vec3.smul]

/-- sqrt table for the concrete dielectric inputs: exact on 1, 9/25 and 16/25. -/
def dielSq : ℚ → ℚ :=
  fun q => if q = 1 then 1 else if q = 9/25 then 3/5 else if q = 16/25 then 4/5 else 0

/-- Incoming ray for the dielectric example: unit direction (3/5, 0, -4/5). -/
def dielRay : Ray := ⟨⟨0, 0, 7⟩, ⟨3/5, 0, -4/5⟩, 0⟩

/-- Valid front-face hit with unit normal (0,0,1) opposing the ray. -/
def dielRec : HitRecord :=
  { point := ⟨1, 2, 3⟩, normal := ⟨0, 0, 1⟩, t := 4, u := 0, v := 0,
    frontFace := true, mat := 0 }

/-- C6 counterexample: with index_of_refraction = 1 and a valid front-face
hit at cos = 4/5, a random draw of 0 makes the Schlick test
(1 - 4/5)^5 = 1/3125 > 0 choose reflection: the returned direction is
(3/5, 0, 4/5), not the incoming direction (3/5, 0, -4/5), refuting that the
material always refracts in a straight line. -/
theorem dielectric_ior_one_reflects_sometimes :
    dielectricScatter dielSq 1 dielRay dielRec 0 =
      some (⟨1, 1, 1⟩, ⟨⟨1, 2, 3⟩, ⟨3/5, 0, 4/5⟩, 0⟩) ∧
    (⟨3/5, 0, 4/5⟩ : Vec3) ≠ dielRay.direction := by
  constructor
  · norm_num [dielectricScatter, dielSq, dielRay, dielRec, Vec3.dot, Vec3.sdiv, Vec3.neg,
      Vec3.sub, Vec3.smul, reflectance, reflect]
  · norm_num [dielRay]

/-- C6 witness: the straight-through conclusion of the amended theorem at the
same concrete hit with a draw of 1/2, which exceeds the reflectance 1/3125. -/
theorem dielectric_ior_one_straight_apply :
    dielectricScatter dielSq 1 dielRay dielRec (1/2) =
      some (⟨1, 1, 1⟩, ⟨dielRec.point, ⟨3/5, 0, -4/5⟩, dielRay.time⟩) :=
  dielectric_ior_one_straight.2 dielSq dielRay dielRec (1/2) ⟨3/5, 0, -4/5⟩ (4/5)
    (by norm_num [dielRay, dielSq, Vec3.dot, Vec3.sdiv])
    (by norm_num [Vec3.dot])
    (by norm_num [dielRec, Vec3.dot])
    (by norm_num [dielRec, Vec3.dot, Vec3.neg])
    (by norm_num) (by norm_num)
    (by norm_num [dielSq]) (by norm_num [dielSq])
    (by norm_num [reflectance])

/-! ## C7: Translation wrapper, src/hittable/translation.rs -/

/-- Translation::hit, src/hittable/translation.rs lines 24-39: shift the ray
origin by -displacement, delegate to the child (an abstract hit function
modelling the boxed Hittable), translate the hit point back, and re-run
set_face_normal on the moved ray with the record's own (already oriented)
normal. -/
def translationHit (childHit : Ray → ℚ → ℚ → Option HitRecord) (displacement : Vec3)
    (ray : Ray) (tmin tmax : ℚ) : Option HitRecord :=
  let movedRay : Ray := ⟨ray.origin.sub displacement, ray.direction, ray.time⟩
  match childHit movedRay tmin tmax with
  | none => none
  | some rec =>
      some (({ rec with point := rec.point.add displacement }).setFaceNormal movedRay
        ({ rec with point := rec.point.add displacement }).normal)

/-- Translation::bounding_box, src/hittable/translation.rs lines 41-52. -/
def translationBoundingBox (childBox : Option Aabb) (displacement : Vec3) : Option Aabb :=
  match childBox with
  | none => none
  | some b => some ⟨b.minimum.add displacement, b.maximum.add displacement⟩

/-- C7 (amended): Translation::hit delegates to the child on the ray whose
origin is shifted by -displacement and returns None exactly when the child
does; on a hit it translates only the point back and leaves t, u, v and the
material identity unchanged, but front_face and normal are recomputed by
set_face_normal from the child's already-oriented normal: front_face becomes
(direction dot child normal < 0) — so a back-face child hit comes back with
front_face = true — and the normal is negated when that dot is not negative.
The bounding box is the child's box with both corners shifted by the
displacement, None when the child has none. -/
theorem translation_hit_characterization :
    ∀ (childHit : Ray → ℚ → ℚ → Option HitRecord) (disp : Vec3) (ray : Ray)
      (tmin tmax : ℚ),
      (childHit ⟨ray.origin.sub disp, ray.direction, ray.time⟩ tmin tmax = none →
        translationHit childHit disp ray tmin tmax = none) ∧
      (∀ rec, childHit ⟨ray.origin.sub disp, ray.direction, ray.time⟩ tmin tmax = some rec →
        translationHit childHit disp ray tmin tmax =
          some { rec with
                 point := rec.point.add disp,
                 frontFace := ray.direction.dot rec.normal < 0,
                 normal := if ray.direction.dot rec.normal < 0 then rec.normal
                           else rec.normal.neg }) ∧
      (∀ childBox : Option Aabb,
        translationBoundingBox childBox disp =
          childBox.map fun b => ⟨b.minimum.add disp, b.maximum.add disp⟩) := by
  intro childHit disp ray tmin tmax
  refine ⟨?_, ?_, ?_⟩
  · intro h
    simp only [translationHit, h]
  · intro rec h
    simp only [translationHit, h, HitRecord.setFaceNormal]
  · intro childBox
    cases childBox <;> rfl

/-- Child record for the C7 counterexample: a back-face hit (front_face is
false) whose oriented normal (0,0,1) opposes the ray direction (0,0,-1). -/
def transRec : HitRecord :=
  { point := ⟨1, 1, 1⟩, normal := ⟨0, 0, 1⟩, t := 2, u := 1/4, v := 1/2,
    frontFace := false, mat := 3 }

/-- Ray for the C7 counterexample. -/
def transRay : Ray := ⟨⟨0, 0, 5⟩, ⟨0, 0, -1⟩, 0⟩

/-- C7 counterexample: with a child whose hit record is a back-face hit,
Translation::hit returns the record with front_face flipped to true (the
re-run of set_face_normal recomputes it from the already-oriented normal),
refuting that every field except the point is unchanged. -/
theorem translation_hit_flips_front_face :
    translationHit (fun _ _ _ => some transRec) ⟨1, 0, 0⟩ transRay 0 100 =
      some { point := ⟨2, 1, 1⟩, normal := ⟨0, 0, 1⟩, t := 2, u := 1/4, v := 1/2,
             frontFace := true, mat := 3 } ∧
    transRec.frontFace = false := by
  constructor
  · norm_num [translationHit, HitRecord.setFaceNormal, transRec, transRay, Vec3.dot,
      Vec3.add, Vec3.sub]
  · rfl

/-- C7 witness: the characterization applied to a concrete child, displacement
and ray. -/
theorem translation_hit_characterization_apply :
    translationHit (fun _ _ _ => some transRec) ⟨1, 0, 0⟩ transRay 0 100 =
      some { transRec with
             point := transRec.point.add ⟨1, 0, 0⟩,
             frontFace := transRay.direction.dot transRec.normal < 0,
             normal := if transRay.direction.dot transRec.normal < 0 then transRec.normal
                       else transRec.normal.neg } :=
  (translation_hit_characterization (fun _ _ _ => some transRec) ⟨1, 0, 0⟩ transRay
    0 100).2.1 transRec rfl

/-! ## Scene objects: List, primitives, wrappers -/

/-- IEEE-style negation. -/
def fxNeg : Fx → Fx
  | Fx.fin q => Fx.fin (-q)
  | Fx.inf => Fx.ninf
  | Fx.ninf => Fx.inf
  | Fx.nan => Fx.nan

/-- IEEE-style subtraction. -/
def fxSub (a b : Fx) : Fx := fxAdd a (fxNeg b)

/-- A boxed Hittable trait object as consumed by List and BvhNode: its hit
function and its bounding box. The box is the value of bounding_box at the
time interval the scene passes to construction; List and BvhNode query it
with the one fixed interval, so it is pre-evaluated here. -/
structure Obj where
  hit : Ray → ℚ → ℚ → Option HitRecord
  box : Option Aabb

/-- The loop of List::hit, src/hittable/list.rs lines 20-31: closest is the
shrinking upper bound, acc the best hit so far. -/
def listHitAux (ray : Ray) (tmin : ℚ) : List Obj → ℚ → Option HitRecord → Option HitRecord
  | [], _, acc => acc
  | o :: rest, closest, acc =>
      match o.hit ray tmin closest with
      | some h => listHitAux ray tmin rest h.t (some h)
      | none => listHitAux ray tmin rest closest acc

/-- List::hit. -/
def listHit (objects : List Obj) (ray : Ray) (tmin tmax : ℚ) : Option HitRecord :=
  listHitAux ray tmin objects tmax none

/-- Build the sphere hit record and orient it; src/hittable/sphere.rs lines
60-74. The surface parameters u, v involve acos/atan2 and are irrational, so
they are passed in as parameters. -/
def sphereRec (center : Vec3) (radius : ℚ) (matId : ℕ) (uu vv : ℚ) (ray : Ray)
    (root : ℚ) : HitRecord :=
  let outward := ((ray.at root).sub center).sdiv radius
  (HitRecord.mk (ray.at root) ⟨0, 0, 0⟩ root uu vv false matId).setFaceNormal ray outward

/-- Sphere::hit, src/hittable/sphere.rs lines 40-75. sqrtd is the f32 square
root of the discriminant, passed as a parameter. This rational model is
faithful for rays whose direction is nonzero (the quadratic coefficient a is
then positive); for a zero direction the f32 code divides by zero and
produces NaN or infinite roots, which the theorems exclude by hypothesis. -/
def sphereHit (center : Vec3) (radius : ℚ) (matId : ℕ) (sqrtd uu vv : ℚ)
    (ray : Ray) (tmin tmax : ℚ) : Option HitRecord :=
  let oc := ray.origin.sub center
  let a := ray.direction.dot ray.direction
  let halfB := oc.dot ray.direction
  let c := oc.dot oc - radius * radius
  if halfB * halfB - a * c < 0 then none
  else
    let root1 := (-halfB - sqrtd) / a
    if ¬(root1 < tmin ∨ tmax < root1) then some (sphereRec center radius matId uu vv ray root1)
    else
      let root2 := (-halfB + sqrtd) / a
      if ¬(root2 < tmin ∨ tmax < root2) then some (sphereRec center radius matId uu vv ray root2)
      else none

/-- MovingSphere::center, src/hittable/moving_sphere.rs lines 53-57. Faithful
when time_end is different from time_start (otherwise the f32 code divides
zero by zero). -/
def movingCenter (centerStart centerEnd : Vec3) (timeStart timeEnd : ℚ) (time : ℚ) : Vec3 :=
  centerStart.add
    (Vec3.smul ((time - timeStart) / (timeEnd - timeStart)) (centerEnd.sub centerStart))

/-- MovingSphere::hit, src/hittable/moving_sphere.rs lines 61-96: the sphere
quadratic with the time-interpolated center. -/
def movingSphereHit (centerStart centerEnd : Vec3) (timeStart timeEnd : ℚ)
    (radius : ℚ) (matId : ℕ) (sqrtd uu vv : ℚ) (ray : Ray) (tmin tmax : ℚ) :
    Option HitRecord :=
  sphereHit (movingCenter centerStart centerEnd timeStart timeEnd ray.time) radius matId
    sqrtd uu vv ray tmin tmax

/-- The Plane enum of src/hittable/rect.rs. -/
inductive RPlane where
  | XY
  | YZ
  | ZX
deriving DecidableEq, Repr

/-- Rect axis selection, src/hittable/rect.rs lines 54-58: (k_axis, a_axis,
b_axis). -/
def rplaneAxes : RPlane → Fin 3 × Fin 3 × Fin 3
  | RPlane.XY => (2, 0, 1)
  | RPlane.YZ => (0, 1, 2)
  | RPlane.ZX => (1, 2, 0)

/-- Unit coordinate vector: zero with a one written at index i, as the
outward normal of a Rect. -/
def stdBasis : Fin 3 → Vec3
  | 0 => ⟨1, 0, 0⟩
  | 1 => ⟨0, 1, 0⟩
  | 2 => ⟨0, 0, 1⟩

/-- Rect::hit, src/hittable/rect.rs lines 53-86, over exact rationals.
Faithful when the ray direction is nonzero along k_axis; when it is zero the
f32 division produces an infinite t (rejected by the range check) or, if the
ray lies in the rect's plane, 0/0 = NaN which the checks accept — see
rectHitF below for the IEEE-extended model of that case. -/
def rectHit (plane : RPlane) (a0 a1 b0 b1 k : ℚ) (matId : ℕ) (ray : Ray)
    (tmin tmax : ℚ) : Option HitRecord :=
  let ax := rplaneAxes plane
  let t := (k - ray.origin.nth ax.1) / ray.direction.nth ax.1
  if t < tmin ∨ t > tmax then none
  else
    let a := ray.origin.nth ax.2.1 + t * ray.direction.nth ax.2.1
    let b := ray.origin.nth ax.2.2 + t * ray.direction.nth ax.2.2
    if a < a0 ∨ a > a1 ∨ b < b0 ∨ b > b1 then none
    else
      some ((HitRecord.mk (ray.at t) ⟨0, 0, 0⟩ t ((a - a0) / (a1 - a0))
        ((b - b0) / (b1 - b0)) false matId).setFaceNormal ray (stdBasis ax.1))

/-- Rect bounding_box, src/hittable/rect.rs lines 88-103: the plane padded by
0.0001 along the fixed axis. -/
def rectBoundingBox (plane : RPlane) (a0 a1 b0 b1 k : ℚ) : Aabb :=
  match plane with
  | RPlane.XY => ⟨⟨a0, b0, k - 1/10000⟩, ⟨a1, b1, k + 1/10000⟩⟩
  | RPlane.YZ => ⟨⟨k - 1/10000, a0, b0⟩, ⟨k + 1/10000, a1, b1⟩⟩
  | RPlane.ZX => ⟨⟨a0, k - 1/10000, b0⟩, ⟨a1, k + 1/10000, b1⟩⟩

/-- A hit record whose scalar results carry IEEE special values, for the
exact model of Rect::hit. -/
structure HitRecordF where
  point : Fx × Fx × Fx
  normal : Vec3
  t : Fx
  u : Fx
  v : Fx
  frontFace : Bool
  mat : ℕ
deriving DecidableEq, Repr

/-- Rect::hit with exact IEEE-754 semantics for the division by the k_axis
direction component: a ray lying in the rect's plane produces t = 0/0 = NaN,
and every subsequent comparison with NaN is false, so nothing rejects the
record. -/
def rectHitF (plane : RPlane) (a0 a1 b0 b1 k : ℚ) (matId : ℕ) (ray : Ray)
    (tmin tmax : ℚ) : Option HitRecordF :=
  let ax := rplaneAxes plane
  let t := fxDiv (Fx.fin (k - ray.origin.nth ax.1)) (Fx.fin (ray.direction.nth ax.1))
  if fxLt t (Fx.fin tmin) || fxLt (Fx.fin tmax) t then none
  else
    let a := fxAdd (Fx.fin (ray.origin.nth ax.2.1)) (fxMul t (Fx.fin (ray.direction.nth ax.2.1)))
    let b := fxAdd (Fx.fin (ray.origin.nth ax.2.2)) (fxMul t (Fx.fin (ray.direction.nth ax.2.2)))
    if fxLt a (Fx.fin a0) || fxLt (Fx.fin a1) a || fxLt b (Fx.fin b0) || fxLt (Fx.fin b1) b
    then none
    else
      let px := fxAdd (Fx.fin ray.origin.x) (fxMul t (Fx.fin ray.direction.x))
      let py := fxAdd (Fx.fin ray.origin.y) (fxMul t (Fx.fin ray.direction.y))
      let pz := fxAdd (Fx.fin ray.origin.z) (fxMul t (Fx.fin ray.direction.z))
      let ff := ray.direction.dot (stdBasis ax.1) < 0
      some { point := (px, py, pz),
             normal := if ff then stdBasis ax.1 else (stdBasis ax.1).neg,
             t := t,
             u := fxDiv (fxSub a (Fx.fin a0)) (Fx.fin (a1 - a0)),
             v := fxDiv (fxSub b (Fx.fin b0)) (Fx.fin (b1 - b0)),
             frontFace := ff, mat := matId }

/-- The six Rect sides of a Cuboid, src/hittable/cuboid.rs lines 30-98. -/
def cuboidSides (bmin bmax : Vec3) (matId : ℕ) : List Obj :=
  [ ⟨rectHit RPlane.XY bmin.x bmax.x bmin.y bmax.y bmax.z matId,
     some (rectBoundingBox RPlane.XY bmin.x bmax.x bmin.y bmax.y bmax.z)⟩,
    ⟨rectHit RPlane.XY bmin.x bmax.x bmin.y bmax.y bmin.z matId,
     some (rectBoundingBox RPlane.XY bmin.x bmax.x bmin.y bmax.y bmin.z)⟩,
    ⟨rectHit RPlane.ZX bmin.z bmax.z bmin.x bmax.x bmax.y matId,
     some (rectBoundingBox RPlane.ZX bmin.z bmax.z bmin.x bmax.x bmax.y)⟩,
    ⟨rectHit RPlane.ZX bmin.z bmax.z bmin.x bmax.x bmin.y matId,
     some (rectBoundingBox RPlane.ZX bmin.z bmax.z bmin.x bmax.x bmin.y)⟩,
    ⟨rectHit RPlane.YZ bmin.y bmax.y bmin.z bmax.z bmax.x matId,
     some (rectBoundingBox RPlane.YZ bmin.y bmax.y bmin.z bmax.z bmax.x)⟩,
    ⟨rectHit RPlane.YZ bmin.y bmax.y bmin.z bmax.z bmin.x matId,
     some (rectBoundingBox RPlane.YZ bmin.y bmax.y bmin.z bmax.z bmin.x)⟩ ]

/-- Cuboid::hit, src/hittable/cuboid.rs lines 101-104: delegate to the List
of the six sides. -/
def cuboidHit (bmin bmax : Vec3) (matId : ℕ) (ray : Ray) (tmin tmax : ℚ) :
    Option HitRecord :=
  listHit (cuboidSides bmin bmax matId) ray tmin tmax

/-- ConstantMedium::hit, src/hittable/constant_medium.rs lines 34-76. The
boundary is an abstract hit function taking extended bounds (the code calls
it with minus and plus infinity); hitDistance models the sampled free path
-(1/density)*ln(U), and rayLength the f32 magnitude of the direction. -/
def constantMediumHit (boundaryHit : Ray → Fx → Fx → Option HitRecord) (matId : ℕ)
    (hitDistance rayLength : ℚ) (ray : Ray) (tmin tmax : ℚ) : Option HitRecord :=
  match boundaryHit ray Fx.ninf Fx.inf with
  | none => none
  | some rec1 =>
      match boundaryHit ray (Fx.fin (rec1.t + 1/10000)) Fx.inf with
      | none => none
      | some rec2 =>
          let t1 := if rec1.t < tmin then tmin else rec1.t
          let t2 := if rec2.t > tmax then tmax else rec2.t
          if t1 ≥ t2 then none
          else
            let t1c := if t1 < 0 then 0 else t1
            if hitDistance > (t2 - t1c) * rayLength then none
            else
              let t := t1c + hitDistance / rayLength
              some ⟨ray.at t, ⟨0, 0, 0⟩, t, 0, 0, false, matId⟩

/-- The Axis enum of src/hittable/rotation.rs. -/
inductive RAxis where
  | X
  | Y
  | Z
deriving DecidableEq, Repr

/-- Axis::get_axises, src/hittable/rotation.rs lines 20-27. -/
def raxisAxes : RAxis → Fin 3 × Fin 3 × Fin 3
  | RAxis.X => (0, 1, 2)
  | RAxis.Y => (1, 2, 0)
  | RAxis.Z => (2, 0, 1)

/-- Write q at coordinate i. -/
def Vec3.setNth (v : Vec3) (i : Fin 3) (q : ℚ) : Vec3 :=
  match i with
  | 0 => { v with x := q }
  | 1 => { v with y := q }
  | 2 => { v with z := q }

/-- Rotation::hit, src/hittable/rotation.rs lines 102-134: rotate origin and
direction into child space, delegate, rotate point and normal back. sinT and
cosT are the f32 sine and cosine of the angle, precomputed at construction
and passed here as parameters. -/
def rotationHit (childHit : Ray → ℚ → ℚ → Option HitRecord) (axis : RAxis)
    (sinT cosT : ℚ) (ray : Ray) (tmin tmax : ℚ) : Option HitRecord :=
  let ax := raxisAxes axis
  let aA := ax.2.1
  let bA := ax.2.2
  let origin := (ray.origin.setNth aA
      (cosT * ray.origin.nth aA + sinT * ray.origin.nth bA)).setNth bA
      (-sinT * ray.origin.nth aA + cosT * ray.origin.nth bA)
  let direction := (ray.direction.setNth aA
      (cosT * ray.direction.nth aA + sinT * ray.direction.nth bA)).setNth bA
      (-sinT * ray.direction.nth aA + cosT * ray.direction.nth bA)
  match childHit ⟨origin, direction, ray.time⟩ tmin tmax with
  | none => none
  | some hit =>
      let point := (hit.point.setNth aA
          (cosT * hit.point.nth aA - sinT * hit.point.nth bA)).setNth bA
          (sinT * hit.point.nth aA + cosT * hit.point.nth bA)
      let normal := (hit.normal.setNth aA
          (cosT * hit.normal.nth aA - sinT * hit.normal.nth bA)).setNth bA
          (sinT * hit.normal.nth aA + cosT * hit.normal.nth bA)
      some { hit with point := point, normal := normal }

/-! ## BvhNode, src/hittable/bvh_node.rs -/

/-- The Node tree of BvhNode: a Branch with two children or a Leaf wrapping
one object, each node carrying its precomputed bounding box. -/
inductive BvhTree where
  | leaf (o : Obj) (box : Aabb)
  | branch (l r : BvhTree) (box : Aabb)

/-- The precomputed bounding box of a node. -/
def BvhTree.nodeBox : BvhTree → Aabb
  | BvhTree.leaf _ b => b
  | BvhTree.branch _ _ b => b

/-- The objects stored at the leaves, left to right. -/
def BvhTree.objs : BvhTree → List Obj
  | BvhTree.leaf o _ => [o]
  | BvhTree.branch l r _ => l.objs ++ r.objs

/-- The f32 maximum, the seed of the axis_range fold. -/
def f32Max : ℚ := 340282346638528859811704183484516925440

/-- BvhNode::axis_range, src/hittable/bvh_node.rs lines 83-100: fold min/max
of the objects' box extents along one axis, skipping boxless objects, seeded
with (f32::MAX, f32::MIN). -/
def axisRange (objects : List Obj) (axis : Fin 3) : ℚ :=
  let p := objects.foldl
    (fun (mm : ℚ × ℚ) o =>
      match o.box with
      | none => mm
      | some b => (min mm.1 (b.minimum.nth axis), max mm.2 (b.maximum.nth axis)))
    (f32Max, -f32Max)
  p.2 - p.1

/-- The split axis: the axis of greatest range, src/hittable/bvh_node.rs lines
28-33. The source sorts the three (axis, range) pairs by descending range
with sort_unstable_by, whose order on equal ranges is unspecified; this model
breaks ties toward the lower axis index. -/
def chooseAxis (objects : List Obj) : Fin 3 :=
  if axisRange objects 1 ≤ axisRange objects 0 ∧ axisRange objects 2 ≤ axisRange objects 0
  then 0
  else if axisRange objects 2 ≤ axisRange objects 1 then 1 else 2

/-- BvhNode::box_compare, src/hittable/bvh_node.rs lines 65-81: order by the
sum of the box extrema (twice the midpoint) along the split axis. A boxless
object panics in the source; the model gives it key 0, and construction below
fails on it at its leaf instead. -/
def midKeySum (axis : Fin 3) (o : Obj) : ℚ :=
  match o.box with
  | some b => b.minimum.nth axis + b.maximum.nth axis
  | none => 0

/-- BvhNode::new, src/hittable/bvh_node.rs lines 27-63, with panics modeled
as None: the empty list and a leaf object without a bounding box fail
construction. The source's sort_unstable_by is modeled by insertion sort on
the same key — any correct sort; the order of key-equal objects is
unspecified in the source. The list is split at length/2: the first half
becomes the left child, the rest the right child. -/
def bvhNew (objects : List Obj) : Option BvhTree :=
  match hs : List.insertionSort
      (fun a b => midKeySum (chooseAxis objects) a ≤ midKeySum (chooseAxis objects) b)
      objects with
  | [] => none
  | [o] =>
      match o.box with
      | none => none
      | some b => some (BvhTree.leaf o b)
  | o1 :: o2 :: rest =>
      match bvhNew ((o1 :: o2 :: rest).take ((o1 :: o2 :: rest).length / 2)),
            bvhNew ((o1 :: o2 :: rest).drop ((o1 :: o2 :: rest).length / 2)) with
      | some lt, some rt =>
          some (BvhTree.branch lt rt (Aabb.surroundingBox lt.nodeBox rt.nodeBox))
      | _, _ => none
termination_by objects.length
decreasing_by
  all_goals
    have hlen : (o1 :: o2 :: rest).length = objects.length := by
      rw [← hs]
      exact List.length_insertionSort _ objects
  · simp only [List.length_take]
    simp only [List.length_cons] at hlen ⊢
    omega
  · simp only [List.length_drop]
    simp only [List.length_cons] at hlen ⊢
    omega

/-- BvhNode::hit, src/hittable/bvh_node.rs lines 104-127: reject on the node
box, else for a branch hit the left subtree, shrink t_max to its t if it hit,
hit the right subtree, and prefer the right result. -/
def bvhHit : BvhTree → Ray → ℚ → ℚ → Option HitRecord
  | BvhTree.leaf o b, ray, tmin, tmax =>
      if b.hit ray tmin tmax = false then none
      else o.hit ray tmin tmax
  | BvhTree.branch l r b, ray, tmin, tmax =>
      if b.hit ray tmin tmax = false then none
      else
        let lh := bvhHit l ray tmin tmax
        let rh := bvhHit r ray tmin (match lh with | some h => h.t | none => tmax)
        match rh with
        | some h => some h
        | none => lh

/-! ## C9: BvhNode::new fails fast -/

/-- C9: BvhNode::new panics (modeled: returns None) on an empty object list
and on a single remaining object with no bounding box; on every non-empty
list whose objects all report bounding boxes, construction succeeds. -/
theorem bvh_new_fail_fast :
    bvhNew [] = none ∧
    (∀ o : Obj, o.box = none → bvhNew [o] = none) ∧
    (∀ objects : List Obj, objects ≠ [] → (∀ o ∈ objects, o.box.isSome) →
      (bvhNew objects).isSome = true) := by
  refine ⟨?_, ?_, ?_⟩
  · rw [bvhNew.eq_def]
    rfl
  · intro o hbox
    rw [bvhNew.eq_def]
    simp only [List.insertionSort, List.orderedInsert, hbox]
  · suffices h : ∀ (n : ℕ) (objects : List Obj), objects.length = n → objects ≠ [] →
        (∀ o ∈ objects, o.box.isSome) → (bvhNew objects).isSome = true by
      intro objects
      exact h objects.length objects rfl
    intro n
    induction n using Nat.strong_induction_on with
    | _ n ih =>
      intro objects hn hne hboxes
      rw [bvhNew.eq_def]
      have hperm := List.perm_insertionSort
        (fun a b => midKeySum (chooseAxis objects) a ≤ midKeySum (chooseAxis objects) b)
        objects
      cases hs : List.insertionSort
          (fun a b => midKeySum (chooseAxis objects) a ≤ midKeySum (chooseAxis objects) b)
          objects with
      | nil =>
          rw [hs] at hperm
          exact absurd (hperm.symm.eq_nil) hne
      | cons o1 tail =>
        cases tail with
        | nil =>
            simp only [hs]
            have ho1 : o1 ∈ objects := by
              rw [hs] at hperm
              exact hperm.mem_iff.mp (by simp)
            obtain ⟨b, hb⟩ := Option.isSome_iff_exists.mp (hboxes o1 ho1)
            simp [hb]
        | cons o2 rest =>
            simp only [hs]
            rw [hs] at hperm
            have hsub : ∀ o ∈ o1 :: o2 :: rest, o.box.isSome := fun o ho =>
              hboxes o (hperm.mem_iff.mp ho)
            have hlen : (o1 :: o2 :: rest).length = n := by
              rw [← hn]
              exact hperm.length_eq
            have hlen2 : 2 ≤ (o1 :: o2 :: rest).length := by simp
            have htake : (bvhNew ((o1 :: o2 :: rest).take
                ((o1 :: o2 :: rest).length / 2))).isSome = true := by
              refine ih _ ?_ _ rfl ?_ ?_
              · simp only [List.length_take]
                simp only [List.length_cons] at hlen ⊢
                omega
              · intro h
                have := congrArg List.length h
                simp only [List.length_take, List.length_nil] at this
                simp only [List.length_cons] at this
                omega
              · intro o ho
                exact hsub o (List.take_subset _ _ ho)
            have hdrop : (bvhNew ((o1 :: o2 :: rest).drop
                ((o1 :: o2 :: rest).length / 2))).isSome = true := by
              refine ih _ ?_ _ rfl ?_ ?_
              · simp only [List.length_drop]
                simp only [List.length_cons] at hlen ⊢
                omega
              · intro h
                have := congrArg List.length h
                simp only [List.length_drop, List.length_nil] at this
                simp only [List.length_cons] at this
                omega
              · intro o ho
                exact hsub o (List.drop_subset _ _ ho)
            obtain ⟨lt, hlt⟩ := Option.isSome_iff_exists.mp htake
            obtain ⟨rt, hrt⟩ := Option.isSome_iff_exists.mp hdrop
            rw [hlt, hrt]
            rfl

/-- A concrete boxed object for the C9 witness. -/
def wObj : Obj := ⟨fun _ _ _ => none, some ⟨⟨0, 0, 0⟩, ⟨1, 1, 1⟩⟩⟩

/-- C9 witness: construction succeeds on a concrete non-empty, fully boxed
two-object list. -/
theorem bvh_new_fail_fast_apply : (bvhNew [wObj, wObj]).isSome = true :=
  bvh_new_fail_fast.2.2 [wObj, wObj] (by simp) (by intro o ho; simp [wObj] at ho; simp [ho, wObj])

/-! ## C10: accepted hits lie inside the query interval -/

/-- The interval contract of Hittable::hit: any returned record's t lies in
[time_min, time_max], for queries with nonnegative time_min. -/
def HitWithin (h : Ray → ℚ → ℚ → Option HitRecord) : Prop :=
  ∀ (ray : Ray) (tmin tmax : ℚ) (r : HitRecord), 0 ≤ tmin →
    h ray tmin tmax = some r → tmin ≤ r.t ∧ r.t ≤ tmax

lemma setFaceNormal_t (rec : HitRecord) (ray : Ray) (outward : Vec3) :
    (rec.setFaceNormal ray outward).t = rec.t := rfl

lemma sphereRec_t (center : Vec3) (radius : ℚ) (matId : ℕ) (uu vv : ℚ) (ray : Ray)
    (root : ℚ) : (sphereRec center radius matId uu vv ray root).t = root := rfl

lemma sphereHit_within (center : Vec3) (radius : ℚ) (matId : ℕ) (sqrtd uu vv : ℚ) :
    HitWithin (sphereHit center radius matId sqrtd uu vv) := by
  intro ray tmin tmax r h0 h
  simp only [sphereHit] at h
  split_ifs at h with hd h1 h2
  all_goals try exact Option.noConfusion h
  all_goals obtain rfl : _ = r := Option.some.inj h
  all_goals simp only [sphereRec_t]
  all_goals
    first
      | (push_neg at h1; exact ⟨h1.1, h1.2⟩)
      | (push_neg at h2; exact ⟨h2.1, h2.2⟩)

lemma rectHit_within (plane : RPlane) (a0 a1 b0 b1 k : ℚ) (matId : ℕ) :
    HitWithin (rectHit plane a0 a1 b0 b1 k matId) := by
  intro ray tmin tmax r h0 h
  simp only [rectHit] at h
  split_ifs at h with h1 h2
  all_goals try exact Option.noConfusion h
  all_goals obtain rfl : _ = r := Option.some.inj h
  all_goals simp only [HitRecord.setFaceNormal]
  all_goals
    first
      | (push_neg at h1; exact ⟨h1.1, h1.2⟩)
      | (push_neg at h2; exact ⟨h2.1, h2.2⟩)

lemma listHitAux_within (ray : Ray) (tmin tmax : ℚ) :
    ∀ (objs : List Obj), (∀ o ∈ objs, HitWithin o.hit) → 0 ≤ tmin →
      ∀ (closest : ℚ) (acc : Option HitRecord), closest ≤ tmax →
      (∀ rr, acc = some rr → tmin ≤ rr.t ∧ rr.t ≤ tmax) →
      ∀ r, listHitAux ray tmin objs closest acc = some r →
        tmin ≤ r.t ∧ r.t ≤ tmax := by
  intro objs
  induction objs with
  | nil =>
      intro _ _ closest acc _ hacc r h
      exact hacc r h
  | cons o rest ihr =>
      intro hall h0 closest acc hc hacc r h
      rw [listHitAux] at h
      cases hh : o.hit ray tmin closest with
      | some hrec =>
          rw [hh] at h
          have hb := hall o (by simp) ray tmin closest hrec h0 hh
          exact ihr (fun o' ho' => hall o' (by simp [ho'])) h0 hrec.t (some hrec)
            (le_trans hb.2 hc)
            (fun rr hrr => by
              obtain rfl : hrec = rr := Option.some.inj hrr
              exact ⟨hb.1, le_trans hb.2 hc⟩) r h
      | none =>
          rw [hh] at h
          exact ihr (fun o' ho' => hall o' (by simp [ho'])) h0 closest acc hc hacc r h

lemma listHit_within (objs : List Obj) (hall : ∀ o ∈ objs, HitWithin o.hit) :
    HitWithin (listHit objs) := by
  intro ray tmin tmax r h0 h
  exact listHitAux_within ray tmin tmax objs hall h0 tmax none (le_refl tmax)
    (fun rr hrr => by cases hrr) r h

lemma bvhHit_within (tree : BvhTree) (hall : ∀ o ∈ tree.objs, HitWithin o.hit) :
    HitWithin (bvhHit tree) := by
  induction tree with
  | leaf o b =>
      intro ray tmin tmax r h0 h
      simp only [bvhHit] at h
      split_ifs at h with hb
      all_goals try exact Option.noConfusion h
      exact hall o (by simp [BvhTree.objs]) ray tmin tmax r h0 h
  | branch l rr b ihl ihr =>
      have halll : ∀ o ∈ l.objs, HitWithin o.hit := fun o ho =>
        hall o (by simp [BvhTree.objs, ho])
      have hallr : ∀ o ∈ rr.objs, HitWithin o.hit := fun o ho =>
        hall o (by simp [BvhTree.objs, ho])
      intro ray tmin tmax r h0 h
      simp only [bvhHit] at h
      split_ifs at h with hb
      all_goals try exact Option.noConfusion h
      cases hlh : bvhHit l ray tmin tmax with
        | some lrec =>
            rw [hlh] at h
            have hlb := ihl halll ray tmin tmax lrec h0 hlh
            cases hrh : bvhHit rr ray tmin lrec.t with
            | some rrec =>
                rw [hrh] at h
                obtain rfl : rrec = r := Option.some.inj h
                have hrb := ihr hallr ray tmin lrec.t rrec h0 hrh
                exact ⟨hrb.1, le_trans hrb.2 hlb.2⟩
            | none =>
                rw [hrh] at h
                obtain rfl : lrec = r := Option.some.inj h
                exact hlb
        | none =>
            rw [hlh] at h
            cases hrh : bvhHit rr ray tmin tmax with
            | some rrec =>
                rw [hrh] at h
                obtain rfl : rrec = r := Option.some.inj h
                exact ihr hallr ray tmin tmax rrec h0 hrh
            | none =>
                rw [hrh] at h
                exact absurd h (by simp)

lemma translationHit_within (childHit : Ray → ℚ → ℚ → Option HitRecord) (disp : Vec3)
    (hchild : HitWithin childHit) : HitWithin (translationHit childHit disp) := by
  intro ray tmin tmax r h0 h
  simp only [translationHit] at h
  cases hc : childHit ⟨ray.origin.sub disp, ray.direction, ray.time⟩ tmin tmax with
  | none => rw [hc] at h; exact Option.noConfusion h
  | some rec =>
      rw [hc] at h
      obtain rfl : _ = r := Option.some.inj h
      exact hchild _ tmin tmax rec h0 hc

lemma rotationHit_within (childHit : Ray → ℚ → ℚ → Option HitRecord) (axis : RAxis)
    (sinT cosT : ℚ) (hchild : HitWithin childHit) :
    HitWithin (rotationHit childHit axis sinT cosT) := by
  intro ray tmin tmax r h0 h
  simp only [rotationHit] at h
  cases hc : childHit _ tmin tmax with
  | none => rw [hc] at h; exact Option.noConfusion h
  | some rec =>
      rw [hc] at h
      obtain rfl : _ = r := Option.some.inj h
      exact hchild _ tmin tmax rec h0 hc

lemma constantMediumHit_within (bhit : Ray → Fx → Fx → Option HitRecord) (matId : ℕ)
    (hd len : ℚ) (hhd : 0 < hd) (hlen : 0 ≤ len) :
    HitWithin (constantMediumHit bhit matId hd len) := by
  intro ray tmin tmax r h0 h
  simp only [constantMediumHit] at h
  cases h1 : bhit ray Fx.ninf Fx.inf with
  | none => rw [h1] at h; exact Option.noConfusion h
  | some rec1 =>
  simp only [h1] at h
  cases h2 : bhit ray (Fx.fin (rec1.t + 1/10000)) Fx.inf with
  | none => simp only [h2] at h; exact Option.noConfusion h
  | some rec2 =>
  simp only [h2] at h
  set A := (if rec1.t < tmin then tmin else rec1.t) with hA
  set B := (if rec2.t > tmax then tmax else rec2.t) with hB
  have htA : tmin ≤ A := by rw [hA]; split <;> linarith
  have htB : B ≤ tmax := by rw [hB]; split <;> linarith
  by_cases hge : A ≥ B
  · rw [if_pos hge] at h; exact Option.noConfusion h
  · rw [if_neg hge] at h
    have hAc : (if A < 0 then 0 else A) = A := if_neg (by linarith)
    rw [hAc] at h
    by_cases hdist : hd > (B - A) * len
    · rw [if_pos hdist] at h; exact Option.noConfusion h
    · rw [if_neg hdist] at h
      obtain rfl : _ = r := Option.some.inj h
      push_neg at hge hdist
      have hlenpos : 0 < len := by
        rcases eq_or_lt_of_le hlen with heq | hpos
        · exfalso
          rw [← heq] at hdist
          simp at hdist
          linarith
        · exact hpos
      have hq1 : 0 < hd / len := div_pos hhd hlenpos
      have hq2 : hd / len ≤ B - A := (div_le_iff hlenpos).mpr (by linarith)
      constructor
      · show tmin ≤ A + hd / len
        linarith
      · show A + hd / len ≤ tmax
        linarith

/-- C10 (amended): for every variant, an accepted hit's t lies in the query
interval [time_min, time_max] (with 0 ≤ time_min), provided the divisions in
the variant's computation are nondegenerate in f32: nonzero direction for
Sphere, nonzero direction and distinct key times for MovingSphere, a nonzero
direction component along the fixed axis for Rect, all three components
nonzero for Cuboid, and a positive sampled free path with nonnegative ray
length for ConstantMedium (the f32 draw -(1/density)ln(U) is positive). For
List, BvhNode, Translation and Rotation the property is compositional in the
children. A ray lying in a Rect's plane violates the claim: the f32 code
computes t = 0/0 = NaN and accepts it, see the counterexample. -/
theorem hittable_hit_t_in_interval :
    (∀ (center : Vec3) (radius : ℚ) (matId : ℕ) (sqrtd uu vv : ℚ) (ray : Ray)
       (tmin tmax : ℚ) (r : HitRecord),
       ray.direction.dot ray.direction ≠ 0 → 0 ≤ tmin →
       sphereHit center radius matId sqrtd uu vv ray tmin tmax = some r →
       tmin ≤ r.t ∧ r.t ≤ tmax) ∧
    (∀ (centerStart centerEnd : Vec3) (timeStart timeEnd radius : ℚ) (matId : ℕ)
       (sqrtd uu vv : ℚ) (ray : Ray) (tmin tmax : ℚ) (r : HitRecord),
       ray.direction.dot ray.direction ≠ 0 → timeStart ≠ timeEnd → 0 ≤ tmin →
       movingSphereHit centerStart centerEnd timeStart timeEnd radius matId sqrtd uu vv
         ray tmin tmax = some r →
       tmin ≤ r.t ∧ r.t ≤ tmax) ∧
    (∀ (plane : RPlane) (a0 a1 b0 b1 k : ℚ) (matId : ℕ) (ray : Ray) (tmin tmax : ℚ)
       (r : HitRecord),
       ray.direction.nth (rplaneAxes plane).1 ≠ 0 → 0 ≤ tmin →
       rectHit plane a0 a1 b0 b1 k matId ray tmin tmax = some r →
       tmin ≤ r.t ∧ r.t ≤ tmax) ∧
    (∀ (bmin bmax : Vec3) (matId : ℕ) (ray : Ray) (tmin tmax : ℚ) (r : HitRecord),
       (∀ i : Fin 3, ray.direction.nth i ≠ 0) → 0 ≤ tmin →
       cuboidHit bmin bmax matId ray tmin tmax = some r →
       tmin ≤ r.t ∧ r.t ≤ tmax) ∧
    (∀ objs : List Obj, (∀ o ∈ objs, HitWithin o.hit) → HitWithin (listHit objs)) ∧
    (∀ tree : BvhTree, (∀ o ∈ tree.objs, HitWithin o.hit) → HitWithin (bvhHit tree)) ∧
    (∀ (childHit : Ray → ℚ → ℚ → Option HitRecord) (disp : Vec3),
       HitWithin childHit → HitWithin (translationHit childHit disp)) ∧
    (∀ (childHit : Ray → ℚ → ℚ → Option HitRecord) (axis : RAxis) (sinT cosT : ℚ),
       HitWithin childHit → HitWithin (rotationHit childHit axis sinT cosT)) ∧
    (∀ (bhit : Ray → Fx → Fx → Option HitRecord) (matId : ℕ) (hd len : ℚ),
       0 < hd → 0 ≤ len → HitWithin (constantMediumHit bhit matId hd len)) := by
  refine ⟨?_, ?_, ?_, ?_, ?_, ?_, ?_, ?_, ?_⟩
  · intro center radius matId sqrtd uu vv ray tmin tmax r hdir h0 h
    exact sphereHit_within center radius matId sqrtd uu vv ray tmin tmax r h0 h
  · intro cs ce ts te radius matId sqrtd uu vv ray tmin tmax r hdir ht h0 h
    exact sphereHit_within _ radius matId sqrtd uu vv ray tmin tmax r h0 h
  · intro plane a0 a1 b0 b1 k matId ray tmin tmax r hdir h0 h
    exact rectHit_within plane a0 a1 b0 b1 k matId ray tmin tmax r h0 h
  · intro bmin bmax matId ray tmin tmax r hdir h0 h
    refine listHit_within (cuboidSides bmin bmax matId) ?_ ray tmin tmax r h0 h
    intro o ho
    simp only [cuboidSides, List.mem_cons, List.not_mem_nil, or_false] at ho
    rcases ho with rfl | rfl | rfl | rfl | rfl | rfl <;> exact rectHit_within _ _ _ _ _ _ _
  · exact fun objs hall => listHit_within objs hall
  · exact fun tree hall => bvhHit_within tree hall
  · exact fun childHit disp hchild => translationHit_within childHit disp hchild
  · exact fun childHit axis sinT cosT hchild =>
      rotationHit_within childHit axis sinT cosT hchild
  · exact fun bhit matId hd len hhd hlen => constantMediumHit_within bhit matId hd len hhd hlen

/-- Ray lying in the z = 0 plane for the C10 counterexample. -/
def nanRay : Ray := ⟨⟨0, 0, 0⟩, ⟨1, 1, 0⟩, 0⟩

/-- C10 counterexample, in the exact IEEE model: for an XY Rect at k = 0 and a
ray lying in that plane, Rect::hit computes t = 0/0 = NaN, every rejection
test on NaN is false, and a record with t = NaN is returned; NaN does not
satisfy time_min <= t, refuting the claim for the Rect variant (and hence for
Cuboid, which is six Rects). -/
theorem rect_hit_accepts_nan :
    rectHitF RPlane.XY 0 2 0 2 0 9 nanRay 0 5 =
      some { point := (Fx.nan, Fx.nan, Fx.nan), normal := ⟨0, 0, -1⟩, t := Fx.nan,
             u := Fx.nan, v := Fx.nan, frontFace := false, mat := 9 } ∧
    fxLe (Fx.fin 0) Fx.nan = false := by
  constructor
  · norm_num [rectHitF, rplaneAxes, nanRay, Vec3.nth, fxDiv, fxMul, fxAdd, fxSub, fxNeg,
      fxLt, fxLe, Vec3.dot, stdBasis, Vec3.neg]
  · rfl

/-- C10 witness: the Rect conjunct applied at a concrete nondegenerate ray
and rectangle, with the accepted t = 4 inside [0, 10]. -/
theorem hittable_hit_t_in_interval_apply :
    (0 : ℚ) ≤ (4 : ℚ) ∧ (4 : ℚ) ≤ (10 : ℚ) := by
  have hsome : rectHit RPlane.XY 0 2 0 2 4 9 ⟨⟨1/2, 1/2, 0⟩, ⟨0, 0, 1⟩, 0⟩ 0 10 =
      some ((HitRecord.mk ⟨1/2, 1/2, 4⟩ ⟨0, 0, 0⟩ 4 (1/4) (1/4) false 9).setFaceNormal
        ⟨⟨1/2, 1/2, 0⟩, ⟨0, 0, 1⟩, 0⟩ (stdBasis 2)) := by
    norm_num [rectHit, rplaneAxes, Vec3.nth, Ray.at, Vec3.add, Vec3.smul, stdBasis]
  have := hittable_hit_t_in_interval.2.2.1 RPlane.XY 0 2 0 2 4 9
    ⟨⟨1/2, 1/2, 0⟩, ⟨0, 0, 1⟩, 0⟩ 0 10 _
    (by norm_num [rplaneAxes, Vec3.nth]) (le_refl 0) hsome
  simpa [HitRecord.setFaceNormal] using this

/-! ## C2: BvhNode::hit versus List::hit

The machinery below characterizes both traversals by the minimum hit
parameter over the object list. WFObj captures the Hittable trait contract
the equivalence relies on: hits lie in the query interval, a hit implies the
object's bounding box passes the slab test on the same interval, and the hit
function behaves on the t_max argument like a least-candidate query (stable
under shrinking above the returned t, empty below it, stable under
growing). -/

/-- The t component of an optional hit. -/
def tOf (h : Option HitRecord) : Option ℚ := h.map fun r => r.t

/-- Minimum of two optional values, none acting as plus infinity. -/
def omin : Option ℚ → Option ℚ → Option ℚ
  | none, b => b
  | some a, none => some a
  | some a, some b => some (min a b)

lemma omin_none_right (a : Option ℚ) : omin a none = a := by cases a <;> rfl

lemma omin_assoc (a b c : Option ℚ) : omin (omin a b) c = omin a (omin b c) := by
  cases a <;> cases b <;> cases c <;> simp [omin, min_assoc]

lemma omin_left_comm (a b c : Option ℚ) : omin a (omin b c) = omin b (omin a c) := by
  cases a <;> cases b <;> cases c <;> simp [omin, min_left_comm, min_comm]

/-- The least t over the objects' hits at the full interval. -/
def bestT (ray : Ray) (tmin : ℚ) (objs : List Obj) (tmax : ℚ) : Option ℚ :=
  objs.foldr (fun o acc => omin (tOf (o.hit ray tmin tmax)) acc) none

lemma bestT_nil (ray : Ray) (tmin tmax : ℚ) : bestT ray tmin [] tmax = none := rfl

lemma bestT_cons (ray : Ray) (tmin tmax : ℚ) (o : Obj) (rest : List Obj) :
    bestT ray tmin (o :: rest) tmax =
      omin (tOf (o.hit ray tmin tmax)) (bestT ray tmin rest tmax) := rfl

lemma bestT_append (ray : Ray) (tmin tmax : ℚ) (l1 l2 : List Obj) :
    bestT ray tmin (l1 ++ l2) tmax =
      omin (bestT ray tmin l1 tmax) (bestT ray tmin l2 tmax) := by
  induction l1 with
  | nil => simp [bestT_nil, bestT, omin]
  | cons o rest ih =>
      rw [List.cons_append, bestT_cons, bestT_cons, ih, omin_assoc]

lemma bestT_perm (ray : Ray) (tmin tmax : ℚ) {l l' : List Obj} (h : l.Perm l') :
    bestT ray tmin l tmax = bestT ray tmin l' tmax := by
  induction h with
  | nil => rfl
  | cons x _ ih => rw [bestT_cons, bestT_cons, ih]
  | swap x y l => rw [bestT_cons, bestT_cons, bestT_cons, bestT_cons, omin_left_comm]
  | trans _ _ ih1 ih2 => rw [ih1, ih2]

/-- The Hittable trait contract used by the equivalence proof. -/
structure WFObj (o : Obj) : Prop where
  range : ∀ (ray : Ray) (tmin tmax : ℚ) (r : HitRecord),
    o.hit ray tmin tmax = some r → tmin ≤ r.t ∧ r.t ≤ tmax
  boxed : ∃ b, o.box = some b ∧ ∀ (ray : Ray) (tmin tmax : ℚ) (r : HitRecord),
    o.hit ray tmin tmax = some r → Aabb.hit b ray tmin tmax = true
  shrinkNone : ∀ (ray : Ray) (tmin tmax tmax' : ℚ), tmax' ≤ tmax →
    o.hit ray tmin tmax = none → o.hit ray tmin tmax' = none
  shrinkSome : ∀ (ray : Ray) (tmin tmax tmax' : ℚ) (r : HitRecord),
    o.hit ray tmin tmax = some r → r.t ≤ tmax' → tmax' ≤ tmax →
    o.hit ray tmin tmax' = some r
  belowNone : ∀ (ray : Ray) (tmin tmax tmax' : ℚ) (r : HitRecord),
    o.hit ray tmin tmax = some r → tmax' < r.t → tmax' ≤ tmax →
    o.hit ray tmin tmax' = none
  growSome : ∀ (ray : Ray) (tmin tmax tmax' : ℚ) (r : HitRecord),
    o.hit ray tmin tmax = some r → tmax ≤ tmax' → o.hit ray tmin tmax' = some r

lemma hit_shrink (o : Obj) (hwf : WFObj o) (ray : Ray) (tmin : ℚ) {tmax c : ℚ}
    (hc : c ≤ tmax) :
    o.hit ray tmin c =
      (o.hit ray tmin tmax).bind fun r => if r.t ≤ c then some r else none := by
  cases hh : o.hit ray tmin tmax with
  | none => simp [hwf.shrinkNone ray tmin tmax c hc hh]
  | some r =>
      by_cases hr : r.t ≤ c
      · simp [hwf.shrinkSome ray tmin tmax c r hh hr hc, hr]
      · push_neg at hr
        simp [hwf.belowNone ray tmin tmax c r hh hr hc, hr, not_le.mpr hr]

lemma omin_bind_filter (a b : Option ℚ) (c : ℚ) :
    omin (a.bind fun v => if v ≤ c then some v else none)
         (b.bind fun v => if v ≤ c then some v else none) =
      (omin a b).bind fun v => if v ≤ c then some v else none := by
  cases a with
  | none => simp [omin]
  | some x =>
    cases b with
    | none => simp [omin_none_right]
    | some y =>
      show omin (if x ≤ c then some x else none) (if y ≤ c then some y else none) =
        if min x y ≤ c then some (min x y) else none
      rcases le_total x y with hxy | hxy
      · rw [min_eq_left hxy]
        by_cases hx : x ≤ c
        · by_cases hy : y ≤ c
          · simp [hx, hy, omin, min_eq_left hxy]
          · simp [hx, hy, omin]
        · have hy : ¬ y ≤ c := fun hy => hx (le_trans hxy hy)
          simp [hx, hy, omin]
      · rw [min_eq_right hxy]
        by_cases hy : y ≤ c
        · by_cases hx : x ≤ c
          · simp [hx, hy, omin, min_eq_right hxy]
          · simp [hx, hy, omin]
        · have hx : ¬ x ≤ c := fun hx => hy (le_trans hxy hx)
          simp [hx, hy, omin]

lemma bestT_shrink (ray : Ray) (tmin : ℚ) (objs : List Obj)
    (hwf : ∀ o ∈ objs, WFObj o) {tmax c : ℚ} (hc : c ≤ tmax) :
    bestT ray tmin objs c =
      (bestT ray tmin objs tmax).bind fun v => if v ≤ c then some v else none := by
  induction objs with
  | nil => simp [bestT_nil]
  | cons o rest ih =>
      rw [bestT_cons, bestT_cons,
        hit_shrink o (hwf o (by simp)) ray tmin hc,
        ih (fun o' ho' => hwf o' (by simp [ho'])), ← omin_bind_filter]
      congr 1
      cases hh : o.hit ray tmin tmax with
      | none => rfl
      | some r => by_cases hr : r.t ≤ c <;> simp [tOf, hr]

lemma bestT_le (ray : Ray) (tmin tmax : ℚ) (objs : List Obj)
    (hwf : ∀ o ∈ objs, WFObj o) :
    ∀ v, bestT ray tmin objs tmax = some v → v ≤ tmax := by
  induction objs with
  | nil => intro v hv; simp [bestT_nil] at hv
  | cons o rest ih =>
      intro v hv
      rw [bestT_cons] at hv
      cases hh : o.hit ray tmin tmax with
      | none =>
          rw [hh] at hv
          simp only [tOf, Option.map_none] at hv
          exact ih (fun o' ho' => hwf o' (by simp [ho'])) v (by simpa [omin] using hv)
      | some r =>
          rw [hh] at hv
          have hr := ((hwf o (by simp)).range ray tmin tmax r hh).2
          simp only [tOf, Option.map_some'] at hv
          cases hb : bestT ray tmin rest tmax with
          | none =>
              rw [hb] at hv
              rw [omin_none_right, Option.some.injEq] at hv
              rw [← hv]
              exact hr
          | some w =>
              rw [hb] at hv
              simp only [omin, Option.some.injEq] at hv
              rw [← hv]
              exact le_trans (min_le_left r.t w) hr

lemma omin_some_filter (a : ℚ) (x : Option ℚ) :
    omin (some a) (x.bind fun v => if v ≤ a then some v else none) = omin (some a) x := by
  cases x with
  | none => rfl
  | some y =>
      show omin (some a) (if y ≤ a then some y else none) = omin (some a) (some y)
      by_cases hy : y ≤ a
      · rw [if_pos hy]
      · rw [if_neg hy]
        push_neg at hy
        simp [omin, min_eq_left (le_of_lt hy)]

lemma omin_absorb (a c0 : ℚ) (x : Option ℚ) (h : a ≤ c0) :
    omin (some c0) (omin (some a) x) = omin (some a) x := by
  cases x with
  | none => simp [omin, min_eq_right h]
  | some y =>
      simp only [omin, Option.some.injEq]
      exact min_eq_right (le_trans (min_le_left a y) h)

lemma listHitAux_bestT (ray : Ray) (tmin : ℚ) (objs : List Obj)
    (hwf : ∀ o ∈ objs, WFObj o) :
    ∀ (c : ℚ) (acc : Option HitRecord), (∀ r, acc = some r → r.t = c) →
      tOf (listHitAux ray tmin objs c acc) = omin (tOf acc) (bestT ray tmin objs c) := by
  induction objs with
  | nil =>
      intro c acc hacc
      rw [listHitAux, bestT_nil, omin_none_right]
  | cons o rest ih =>
      intro c acc hacc
      rw [listHitAux]
      have hwrest : ∀ o' ∈ rest, WFObj o' := fun o' ho' => hwf o' (by simp [ho'])
      cases hh : o.hit ray tmin c with
      | some h =>
          have hrange := (hwf o (by simp)).range ray tmin c h hh
          rw [ih hwrest h.t (some h) (fun r hr => by rw [← Option.some.inj hr])]
          rw [bestT_cons, hh, bestT_shrink ray tmin rest hwrest hrange.2]
          show omin (some h.t) _ = omin (tOf acc) (omin (tOf (some h)) _)
          rw [omin_some_filter]
          cases hacc2 : acc with
          | none => simp [tOf, omin]
          | some r =>
              have := hacc r hacc2
              simp only [tOf, Option.map_some', this]
              rw [omin_absorb h.t c _ hrange.2]
      | none =>
          rw [ih hwrest c acc hacc, bestT_cons, hh]
          simp [tOf, omin]

lemma listHit_bestT (objs : List Obj) (hwf : ∀ o ∈ objs, WFObj o) (ray : Ray)
    (tmin tmax : ℚ) :
    tOf (listHit objs ray tmin tmax) = bestT ray tmin objs tmax := by
  rw [listHit, listHitAux_bestT ray tmin objs hwf tmax none (fun r hr => by cases hr)]
  rfl

lemma fxMul_fin_fin (x y : ℚ) : fxMul (Fx.fin x) (Fx.fin y) = Fx.fin (x * y) := rfl

lemma fxMul_fin_inf_pos {p : ℚ} (h : 0 < p) : fxMul (Fx.fin p) Fx.inf = Fx.inf := by
  simp only [fxMul]
  rw [if_pos h]

lemma fxMul_fin_inf_neg {p : ℚ} (h : p < 0) : fxMul (Fx.fin p) Fx.inf = Fx.ninf := by
  simp only [fxMul]
  rw [if_neg (by linarith), if_pos h]

lemma fxMul_fin_inf_zero {p : ℚ} (h : p = 0) : fxMul (Fx.fin p) Fx.inf = Fx.nan := by
  simp only [fxMul]
  rw [if_neg (by linarith), if_neg (by linarith)]

lemma slab_inf_fail_pos (p q tmin tmax : ℚ) (hp : 0 < p) :
    slabPass (fxMul (Fx.fin p) Fx.inf) (fxMul (Fx.fin q) Fx.inf) tmin tmax = false := by
  rw [fxMul_fin_inf_pos hp]
  rcases lt_trichotomy q 0 with hq | hq | hq
  · rw [fxMul_fin_inf_neg hq]; simp [slabPass, fxLt, fxLe]
  · rw [fxMul_fin_inf_zero hq]; simp [slabPass, fxLt, fxLe]
  · rw [fxMul_fin_inf_pos hq]; simp [slabPass, fxLt, fxLe]

lemma slab_inf_fail_negq (p q tmin tmax : ℚ) (hq : q < 0) :
    slabPass (fxMul (Fx.fin p) Fx.inf) (fxMul (Fx.fin q) Fx.inf) tmin tmax = false := by
  rw [fxMul_fin_inf_neg hq]
  rcases lt_trichotomy p 0 with hp | hp | hp
  · rw [fxMul_fin_inf_neg hp]; simp [slabPass, fxLt, fxLe]
  · rw [fxMul_fin_inf_zero hp]; simp [slabPass, fxLt, fxLe]
  · rw [fxMul_fin_inf_pos hp]; simp [slabPass, fxLt, fxLe]

lemma slab_inf_eval (p q tmin tmax : ℚ) (hp : p ≤ 0) (hq : 0 ≤ q) :
    slabPass (fxMul (Fx.fin p) Fx.inf) (fxMul (Fx.fin q) Fx.inf) tmin tmax =
      !(decide (tmax ≤ tmin)) := by
  rcases lt_or_eq_of_le hp with h1 | h1
  · rw [fxMul_fin_inf_neg h1]
    rcases lt_or_eq_of_le hq with h2 | h2
    · rw [fxMul_fin_inf_pos h2]; simp [slabPass, fxLt, fxLe]
    · rw [fxMul_fin_inf_zero h2.symm]; simp [slabPass, fxLt, fxLe]
  · rw [fxMul_fin_inf_zero h1]
    rcases lt_or_eq_of_le hq with h2 | h2
    · rw [fxMul_fin_inf_pos h2]; simp [slabPass, fxLt, fxLe]
    · rw [fxMul_fin_inf_zero h2.symm]; simp [slabPass, fxLt, fxLe]

lemma mulinf_slab_pass_mono (p q p' q' tmin tmax : ℚ) (hp : p' ≤ p) (hq : q ≤ q')
    (h : slabPass (fxMul (Fx.fin p) Fx.inf) (fxMul (Fx.fin q) Fx.inf) tmin tmax = true) :
    slabPass (fxMul (Fx.fin p') Fx.inf) (fxMul (Fx.fin q') Fx.inf) tmin tmax = true := by
  have hp0 : p ≤ 0 := by
    by_contra hc
    push_neg at hc
    rw [slab_inf_fail_pos p q tmin tmax hc] at h
    exact Bool.noConfusion h
  have hq0 : 0 ≤ q := by
    by_contra hc
    push_neg at hc
    rw [slab_inf_fail_negq p q tmin tmax hc] at h
    exact Bool.noConfusion h
  rw [slab_inf_eval p q tmin tmax hp0 hq0] at h
  rw [slab_inf_eval p' q' tmin tmax (le_trans hp hp0) (le_trans hq0 hq)]
  exact h

lemma fin_slab_pass_mono (s e s' e' tmin tmax : ℚ) (hs : s' ≤ s) (he : e ≤ e')
    (h : slabPass (Fx.fin s) (Fx.fin e) tmin tmax = true) :
    slabPass (Fx.fin s') (Fx.fin e') tmin tmax = true := by
  simp only [slabPass, fxLt, fxLe, Bool.not_eq_true', decide_eq_true_eq,
    decide_eq_false_iff_not] at h ⊢
  split_ifs at h ⊢ <;>
    simp_all only [decide_eq_true_eq, decide_eq_false_iff_not, not_lt, not_le] <;>
    linarith

lemma axisTest_mono_box (box box' : Aabb) (ray : Ray) (tmin tmax : ℚ) (a : Fin 3)
    (h1 : box'.minimum.nth a ≤ box.minimum.nth a)
    (h2 : box.maximum.nth a ≤ box'.maximum.nth a)
    (h : box.axisTest ray tmin tmax a = true) : box'.axisTest ray tmin tmax a = true := by
  rw [axisTest_eq_slabPass] at h ⊢
  by_cases hd : ray.direction.nth a = 0
  · have hinv : fxDiv (Fx.fin 1) (Fx.fin (ray.direction.nth a)) = Fx.inf := by
      rw [hd]
      norm_num [fxDiv]
    have hswapn : ¬(fxLt (fxDiv (Fx.fin 1) (Fx.fin (ray.direction.nth a)))
        (Fx.fin 0) = true) := by
      rw [hinv]; simp [fxLt]
    simp only [if_neg hswapn, hinv] at h ⊢
    exact mulinf_slab_pass_mono _ _ _ _ tmin tmax (by linarith) (by linarith) h
  · have hinv : fxDiv (Fx.fin 1) (Fx.fin (ray.direction.nth a)) =
        Fx.fin (1 / ray.direction.nth a) := by
      simp [fxDiv, hd]
    rw [hinv] at h ⊢
    rcases lt_trichotomy (ray.direction.nth a) 0 with hneg | hzero | hpos
    · have hiv : 1 / ray.direction.nth a < 0 := div_neg_of_pos_of_neg one_pos hneg
      have hswap : fxLt (Fx.fin (1 / ray.direction.nth a)) (Fx.fin 0) = true := by
        simp only [fxLt, decide_eq_true_eq]
        exact hiv
      simp only [if_pos hswap, fxMul_fin_fin] at h ⊢
      refine fin_slab_pass_mono _ _ _ _ tmin tmax ?_ ?_ h
      · exact mul_le_mul_of_nonpos_right (by linarith) (le_of_lt hiv)
      · exact mul_le_mul_of_nonpos_right (by linarith) (le_of_lt hiv)
    · exact absurd hzero hd
    · have hiv : 0 < 1 / ray.direction.nth a := by positivity
      have hswapn : ¬(fxLt (Fx.fin (1 / ray.direction.nth a)) (Fx.fin 0) = true) := by
        simp only [fxLt, decide_eq_true_eq]
        exact not_lt.mpr (le_of_lt hiv)
      simp only [if_neg hswapn, fxMul_fin_fin] at h ⊢
      refine fin_slab_pass_mono _ _ _ _ tmin tmax ?_ ?_ h
      · exact mul_le_mul_of_nonneg_right (by linarith) (le_of_lt hiv)
      · exact mul_le_mul_of_nonneg_right (by linarith) (le_of_lt hiv)

lemma aabbHit_mono_box (b b' : Aabb) (hc : Aabb.contained b b') (ray : Ray)
    (tmin tmax : ℚ) (h : Aabb.hit b ray tmin tmax = true) :
    Aabb.hit b' ray tmin tmax = true := by
  simp only [Aabb.hit, List.all_eq_true] at h ⊢
  exact fun a ha => axisTest_mono_box b b' ray tmin tmax a (hc.1 a) (hc.2 a) (h a ha)

/-- Well-formedness of a built BVH tree: leaves wrap contract-satisfying
objects whose stored box is the object's box, and each branch box contains
both child boxes. -/
inductive WFTree : BvhTree → Prop where
  | leaf : ∀ (o : Obj) (b : Aabb), WFObj o → o.box = some b → WFTree (BvhTree.leaf o b)
  | branch : ∀ (l r : BvhTree) (b : Aabb), WFTree l → WFTree r →
      Aabb.contained l.nodeBox b → Aabb.contained r.nodeBox b →
      WFTree (BvhTree.branch l r b)

lemma wfTree_objs_wf (tree : BvhTree) (h : WFTree tree) : ∀ o ∈ tree.objs, WFObj o := by
  induction h with
  | leaf o b hobj hbox =>
      intro o' ho'
      simp only [BvhTree.objs, List.mem_singleton] at ho'
      rw [ho']; exact hobj
  | branch l r b hl hr hcl hcr ihl ihr =>
      intro o' ho'
      simp only [BvhTree.objs, List.mem_append] at ho'
      rcases ho' with ho' | ho'
      · exact ihl o' ho'
      · exact ihr o' ho'

lemma wfTree_hit_gate (tree : BvhTree) (h : WFTree tree) :
    ∀ o ∈ tree.objs, ∀ (ray : Ray) (tmin tmax : ℚ) (r : HitRecord),
      o.hit ray tmin tmax = some r → Aabb.hit tree.nodeBox ray tmin tmax = true := by
  induction h with
  | leaf o b hobj hbox =>
      intro o' ho' ray tmin tmax r hr
      simp only [BvhTree.objs, List.mem_singleton] at ho'
      subst ho'
      obtain ⟨b', hb', hgate⟩ := hobj.boxed
      rw [hbox] at hb'
      obtain rfl : b = b' := Option.some.inj hb'
      exact hgate ray tmin tmax r hr
  | branch l r b hl hr hcl hcr ihl ihr =>
      intro o' ho' ray tmin tmax rec hrec
      simp only [BvhTree.objs, List.mem_append] at ho'
      rcases ho' with ho' | ho'
      · exact aabbHit_mono_box l.nodeBox b hcl ray tmin tmax (ihl o' ho' ray tmin tmax rec hrec)
      · exact aabbHit_mono_box r.nodeBox b hcr ray tmin tmax (ihr o' ho' ray tmin tmax rec hrec)

lemma contained_surroundingBox_left (b0 b1 : Aabb) :
    Aabb.contained b0 (Aabb.surroundingBox b0 b1) := by
  constructor <;> intro i <;> fin_cases i <;>
    simp [Aabb.surroundingBox, Vec3.nth, min_le_left, le_max_left]

lemma contained_surroundingBox_right (b0 b1 : Aabb) :
    Aabb.contained b1 (Aabb.surroundingBox b0 b1) := by
  constructor <;> intro i <;> fin_cases i <;>
    simp [Aabb.surroundingBox, Vec3.nth, min_le_right, le_max_right]

lemma bestT_none_of_all (ray : Ray) (tmin tmax : ℚ) (objs : List Obj)
    (hall : ∀ o ∈ objs, o.hit ray tmin tmax = none) : bestT ray tmin objs tmax = none := by
  induction objs with
  | nil => rfl
  | cons o rest ih =>
      rw [bestT_cons, hall o (by simp), ih (fun o' ho' => hall o' (by simp [ho']))]
      rfl

lemma bvhNew_spec : ∀ (n : ℕ) (L : List Obj) (tree : BvhTree), L.length = n →
    bvhNew L = some tree →
    tree.objs.Perm L ∧ ((∀ o ∈ L, WFObj o) → WFTree tree) := by
  intro n
  induction n using Nat.strong_induction_on with
  | _ n ih =>
    intro L tree hn htree
    rw [bvhNew.eq_def] at htree
    have hperm := List.perm_insertionSort
      (fun a b => midKeySum (chooseAxis L) a ≤ midKeySum (chooseAxis L) b) L
    split at htree
    · exact Option.noConfusion htree
    · rename_i o1 hs
      rw [hs] at hperm
      split at htree
      · exact Option.noConfusion htree
      · rename_i b hbox
        obtain rfl : BvhTree.leaf o1 b = tree := Option.some.inj htree
        constructor
        · simpa [BvhTree.objs] using hperm
        · intro hwf
          exact WFTree.leaf o1 b (hwf o1 (hperm.mem_iff.mp (by simp))) hbox
    · rename_i o1 o2 rest hs
      rw [hs] at hperm
      have hlen : (o1 :: o2 :: rest).length = n := by rw [← hn]; exact hperm.length_eq
      have hlt1 : ((o1 :: o2 :: rest).take ((o1 :: o2 :: rest).length / 2)).length < n := by
        simp only [List.length_take]
        simp only [List.length_cons] at hlen ⊢
        omega
      have hlt2 : ((o1 :: o2 :: rest).drop ((o1 :: o2 :: rest).length / 2)).length < n := by
        simp only [List.length_drop]
        simp only [List.length_cons] at hlen ⊢
        omega
      split at htree
      · rename_i lt rt hL hR
        obtain rfl :
            BvhTree.branch lt rt (Aabb.surroundingBox lt.nodeBox rt.nodeBox) =
              tree := Option.some.inj htree
        obtain ⟨hpl, hwl⟩ := ih _ hlt1 _ lt rfl hL
        obtain ⟨hpr, hwr⟩ := ih _ hlt2 _ rt rfl hR
        have hsplit : ((o1 :: o2 :: rest).take ((o1 :: o2 :: rest).length / 2) ++
            (o1 :: o2 :: rest).drop ((o1 :: o2 :: rest).length / 2)) =
              o1 :: o2 :: rest := List.take_append_drop _ _
        constructor
        · show (lt.objs ++ rt.objs).Perm L
          refine List.Perm.trans (hpl.append hpr) ?_
          rw [hsplit]
          exact hperm
        · intro hwf
          have hwfs : ∀ o ∈ o1 :: o2 :: rest, WFObj o := fun o ho =>
            hwf o (hperm.mem_iff.mp ho)
          refine WFTree.branch lt rt _ ?_ ?_ ?_ ?_
          · refine hwl fun o ho => hwfs o ?_
            rw [← hsplit]
            exact List.mem_append_left _ ho
          · refine hwr fun o ho => hwfs o ?_
            rw [← hsplit]
            exact List.mem_append_right _ ho
          · exact contained_surroundingBox_left _ _
          · exact contained_surroundingBox_right _ _
      · exact Option.noConfusion htree

lemma bvhHit_bestT (tree : BvhTree) (hwf : WFTree tree) :
    ∀ (ray : Ray) (tmin tmax : ℚ),
      tOf (bvhHit tree ray tmin tmax) = bestT ray tmin tree.objs tmax := by
  induction hwf with
  | leaf o b hobj hbox =>
      intro ray tmin tmax
      rw [bvhHit]
      by_cases hg : Aabb.hit b ray tmin tmax = false
      · rw [if_pos hg]
        have hnone : o.hit ray tmin tmax = none := by
          cases hh : o.hit ray tmin tmax with
          | none => rfl
          | some r =>
              obtain ⟨b', hb', hgate⟩ := hobj.boxed
              rw [hbox] at hb'
              obtain rfl : b = b' := Option.some.inj hb'
              rw [hgate ray tmin tmax r hh] at hg
              exact Bool.noConfusion hg
        simp [BvhTree.objs, bestT_cons, bestT_nil, hnone, tOf, omin]
      · rw [if_neg hg]
        show tOf (o.hit ray tmin tmax) = bestT ray tmin [o] tmax
        rw [bestT_cons, bestT_nil, omin_none_right]
  | branch l r b hl hr hcl hcr ihl ihr =>
      intro ray tmin tmax
      rw [bvhHit]
      by_cases hg : Aabb.hit b ray tmin tmax = false
      · rw [if_pos hg]
        have hwhole : WFTree (BvhTree.branch l r b) := WFTree.branch l r b hl hr hcl hcr
        have hnone : ∀ o ∈ (BvhTree.branch l r b).objs, o.hit ray tmin tmax = none := by
          intro o ho
          cases hh : o.hit ray tmin tmax with
          | none => rfl
          | some rec1 =>
              have hgate := wfTree_hit_gate _ hwhole o ho ray tmin tmax rec1 hh
              rw [BvhTree.nodeBox] at hgate
              rw [hgate] at hg
              exact Bool.noConfusion hg
        rw [bestT_none_of_all ray tmin tmax _ hnone]
        rfl
      · rw [if_neg hg]
        show tOf (match bvhHit r ray tmin
            (match bvhHit l ray tmin tmax with | some h => h.t | none => tmax) with
          | some h => some h
          | none => bvhHit l ray tmin tmax) =
          bestT ray tmin (BvhTree.branch l r b).objs tmax
        have hobjs : (BvhTree.branch l r b).objs = l.objs ++ r.objs := rfl
        rw [hobjs, bestT_append]
        cases hlh : bvhHit l ray tmin tmax with
        | none =>
            have hbl : bestT ray tmin l.objs tmax = none := by
              rw [← ihl ray tmin tmax, hlh]; rfl
            rw [hbl]
            show tOf (match bvhHit r ray tmin tmax with
              | some h => some h | none => none) = omin none (bestT ray tmin r.objs tmax)
            rw [← ihr ray tmin tmax]
            cases hrh : bvhHit r ray tmin tmax with
            | none => rfl
            | some h1 => rfl
        | some h0 =>
            have hbl : bestT ray tmin l.objs tmax = some h0.t := by
              rw [← ihl ray tmin tmax, hlh]; rfl
            have hwl : ∀ o ∈ l.objs, WFObj o := wfTree_objs_wf l hl
            have hwr : ∀ o ∈ r.objs, WFObj o := wfTree_objs_wf r hr
            have ht0 : h0.t ≤ tmax := bestT_le ray tmin tmax l.objs hwl h0.t hbl
            have hrt : tOf (bvhHit r ray tmin h0.t) =
                (bestT ray tmin r.objs tmax).bind
                  fun v => if v ≤ h0.t then some v else none := by
              rw [ihr ray tmin h0.t, bestT_shrink ray tmin r.objs hwr ht0]
            rw [hbl, ← omin_some_filter h0.t (bestT ray tmin r.objs tmax), ← hrt]
            cases hrh : bvhHit r ray tmin h0.t with
            | none =>
                show tOf (some h0) = omin (some h0.t) (tOf (none : Option HitRecord))
                rfl
            | some h1 =>
                have h1le : h1.t ≤ h0.t := by
                  rw [hrh] at hrt
                  simp only [tOf, Option.map_some'] at hrt
                  cases hb2 : bestT ray tmin r.objs tmax with
                  | none =>
                      rw [hb2] at hrt
                      exact Option.noConfusion hrt
                  | some v =>
                      rw [hb2, Option.some_bind] at hrt
                      by_cases hv : v ≤ h0.t
                      · rw [if_pos hv] at hrt
                        rw [Option.some.inj hrt]
                        exact hv
                      · rw [if_neg hv] at hrt
                        exact Option.noConfusion hrt
                show tOf (some h1) = omin (some h0.t) (tOf (some h1))
                simp [tOf, omin, min_eq_right h1le]

/-- C2 (amended): on every object list whose members satisfy the Hittable
contract (WFObj) and on which BvhNode::new succeeds, BVH traversal and List
traversal agree, for every ray and query interval, on whether there is a hit
and on the returned hit's t: the t-projections of the two results are equal,
so in particular one returns None exactly when the other does. The full
records need not coincide: when two objects are first hit at exactly the same
t, the two traversals may return the hits of different objects, so the
claimed equality of material identity fails (see the counterexample). -/
theorem bvh_list_equiv (L : List Obj) (tree : BvhTree)
    (hwf : ∀ o ∈ L, WFObj o) (htree : bvhNew L = some tree)
    (ray : Ray) (tmin tmax : ℚ) :
    tOf (bvhHit tree ray tmin tmax) = tOf (listHit L ray tmin tmax) := by
  obtain ⟨hperm, hwtree⟩ := bvhNew_spec L.length L tree rfl htree
  rw [bvhHit_bestT tree (hwtree hwf) ray tmin tmax,
    bestT_perm ray tmin tmax hperm, listHit_bestT L hwf ray tmin tmax]

lemma bvhNew_single (o : Obj) (b : Aabb) (hb : o.box = some b) :
    bvhNew [o] = some (BvhTree.leaf o b) := by
  have hs : List.insertionSort
      (fun x y => midKeySum (chooseAxis [o]) x ≤ midKeySum (chooseAxis [o]) y) [o] =
        [o] := by
    simp [List.insertionSort, List.orderedInsert]
  rw [bvhNew.eq_def]
  split
  · rename_i hs2
    rw [hs] at hs2
    exact List.noConfusion hs2
  · rename_i o1 hs2
    rw [hs] at hs2
    obtain ⟨rfl, -⟩ := List.cons.inj hs2
    rw [hb]
  · rename_i o1 o2 rest hs2
    rw [hs] at hs2
    obtain ⟨-, htl⟩ := List.cons.inj hs2
    exact List.noConfusion htl

lemma bvhNew_pair (L : List Obj) (a b : Obj) (ba bb : Aabb)
    (hsort : List.insertionSort
      (fun x y => midKeySum (chooseAxis L) x ≤ midKeySum (chooseAxis L) y) L = [a, b])
    (hba : a.box = some ba) (hbb : b.box = some bb) :
    bvhNew L = some (BvhTree.branch (BvhTree.leaf a ba) (BvhTree.leaf b bb)
      (Aabb.surroundingBox ba bb)) := by
  rw [bvhNew.eq_def]
  split
  · rename_i hs2
    rw [hsort] at hs2
    exact List.noConfusion hs2
  · rename_i o1 hs2
    rw [hsort] at hs2
    obtain ⟨-, htl⟩ := List.cons.inj hs2
    exact List.noConfusion htl
  · rename_i o1 o2 rest hs2
    rw [hsort] at hs2
    obtain ⟨rfl, htl⟩ := List.cons.inj hs2
    obtain ⟨rfl, htl2⟩ := List.cons.inj htl
    have hrest : rest = [] := htl2.symm
    subst hrest
    have hlen : (a :: b :: ([] : List Obj)).length / 2 = 1 := by
      simp only [List.length_cons, List.length_nil]
    have htake : (a :: b :: ([] : List Obj)).take ((a :: b :: ([] : List Obj)).length / 2) =
        [a] := by rw [hlen]; rfl
    have hdrop : (a :: b :: ([] : List Obj)).drop ((a :: b :: ([] : List Obj)).length / 2) =
        [b] := by rw [hlen]; rfl
    rw [htake, hdrop, bvhNew_single a ba hba, bvhNew_single b bb hbb]
    rfl

/-- Witness scene data: a ray along the x axis. -/
def wR2 : Ray := ⟨⟨0, 0, 0⟩, ⟨1, 0, 0⟩, 0⟩

/-- Witness box [1,3]x[-1,1]x[-1,1] around the witness hit point. -/
def wBox2 : Aabb := ⟨⟨1, -1, -1⟩, ⟨3, 1, 1⟩⟩

/-- Witness hit record at t = 2 on the witness ray. -/
def wRec2 : HitRecord := ⟨⟨2, 0, 0⟩, ⟨-1, 0, 0⟩, 2, 0, 0, true, 0⟩

/-- Witness object: hit exactly on the witness ray when 2 lies in the
(half-open at tmin) query interval, boxed by wBox2. -/
def wObj2 : Obj :=
  ⟨fun ray tmin tmax => if ray = wR2 ∧ tmin < 2 ∧ 2 ≤ tmax then some wRec2 else none,
   some wBox2⟩

lemma wBox2_gate (tmin tmax : ℚ) (h1 : tmin < 2) (h2 : 2 ≤ tmax) :
    Aabb.hit wBox2 wR2 tmin tmax = true := by
  simp only [Aabb.hit, List.all_cons, List.all_nil, Bool.and_true, Bool.and_eq_true]
  refine ⟨?_, ?_, ?_⟩ <;>
    norm_num [Aabb.axisTest, Vec3.nth, wBox2, wR2, fxDiv, fxMul, fxLt, fxLe] <;>
    (try split_ifs) <;>
    (try norm_num) <;>
    linarith

lemma wObj2_wf : WFObj wObj2 := by
  refine ⟨?_, ?_, ?_, ?_, ?_, ?_⟩
  · intro ray tmin tmax r h
    simp only [wObj2] at h
    split_ifs at h with hc
    obtain ⟨-, hl, hr⟩ := hc
    obtain rfl : wRec2 = r := Option.some.inj h
    have ht : wRec2.t = (2 : ℚ) := rfl
    rw [ht]
    exact ⟨le_of_lt hl, hr⟩
  · refine ⟨wBox2, rfl, ?_⟩
    intro ray tmin tmax r h
    simp only [wObj2] at h
    split_ifs at h with hc
    obtain ⟨rfl, hl, hr⟩ := hc
    exact wBox2_gate tmin tmax hl hr
  · intro ray tmin tmax tmax' hle h
    simp only [wObj2] at h ⊢
    split_ifs at h with hc
    have hng : ¬(ray = wR2 ∧ tmin < 2 ∧ 2 ≤ tmax') :=
      fun hc' => hc ⟨hc'.1, hc'.2.1, le_trans hc'.2.2 hle⟩
    rw [if_neg hng]
  · intro ray tmin tmax tmax' r h hr hle
    simp only [wObj2] at h ⊢
    split_ifs at h with hc
    obtain ⟨hray, hl, h2⟩ := hc
    obtain rfl : wRec2 = r := Option.some.inj h
    have ht : wRec2.t = (2 : ℚ) := rfl
    rw [ht] at hr
    rw [if_pos ⟨hray, hl, hr⟩]
  · intro ray tmin tmax tmax' r h hlt hle
    simp only [wObj2] at h ⊢
    split_ifs at h with hc
    obtain ⟨hray, hl, h2⟩ := hc
    obtain rfl : wRec2 = r := Option.some.inj h
    have ht : wRec2.t = (2 : ℚ) := rfl
    rw [ht] at hlt
    have hng : ¬(ray = wR2 ∧ tmin < 2 ∧ 2 ≤ tmax') :=
      fun hc' => absurd hc'.2.2 (not_le.mpr hlt)
    rw [if_neg hng]
  · intro ray tmin tmax tmax' r h hle
    simp only [wObj2] at h ⊢
    split_ifs at h with hc
    obtain ⟨hray, hl, h2⟩ := hc
    rw [if_pos ⟨hray, hl, le_trans h2 hle⟩]
    exact h

lemma wObj2_wf_all : ∀ o ∈ [wObj2], WFObj o := by
  intro o ho
  simp only [List.mem_singleton] at ho
  rw [ho]
  exact wObj2_wf

lemma wObj2_new : bvhNew [wObj2] = some (BvhTree.leaf wObj2 wBox2) :=
  bvhNew_single wObj2 wBox2 rfl

/-- C2 witness: the BVH/List agreement applied to a concrete one-object
scene, ray and interval, with the construction and contract hypotheses
discharged at that input. -/
theorem bvh_list_equiv_apply :
    (∀ o ∈ [wObj2], WFObj o) ∧
    bvhNew [wObj2] = some (BvhTree.leaf wObj2 wBox2) ∧
    tOf (bvhHit (BvhTree.leaf wObj2 wBox2) wR2 0 5) = tOf (listHit [wObj2] wR2 0 5) :=
  ⟨wObj2_wf_all, wObj2_new,
   bvh_list_equiv [wObj2] (BvhTree.leaf wObj2 wBox2) wObj2_wf_all wObj2_new wR2 0 5⟩

/-- Counterexample scene: a box first reached by the x-axis ray at t = 4. -/
def boxA : Aabb := ⟨⟨4, -1, -1⟩, ⟨6, 1, 1⟩⟩

/-- Counterexample scene: a wider box, also first hit at t = 4, whose larger
y-range makes y the split axis and whose larger mid-key sorts it second. -/
def boxB : Aabb := ⟨⟨1, 0, -3⟩, ⟨7, 6, 3⟩⟩

/-- Hit record of the first object, material 0. -/
def recA : HitRecord := ⟨⟨4, 0, 0⟩, ⟨-1, 0, 0⟩, 4, 0, 0, true, 0⟩

/-- Hit record of the second object, material 1. -/
def recB : HitRecord := ⟨⟨4, 0, 0⟩, ⟨0, -1, 0⟩, 4, 0, 0, true, 1⟩

/-- First object: accepted exactly when 4 lies in the query interval, the
same acceptance test Sphere::hit applies to its root. -/
def objA : Obj := ⟨fun _ tmin tmax => if tmin ≤ 4 ∧ 4 ≤ tmax then some recA else none,
  some boxA⟩

/-- Second object, identical acceptance at t = 4 but a different record. -/
def objB : Obj := ⟨fun _ tmin tmax => if tmin ≤ 4 ∧ 4 ≤ tmax then some recB else none,
  some boxB⟩

/-- The counterexample scene list, B before A. -/
def cexList : List Obj := [objB, objA]

/-- The x-axis ray of the counterexample. -/
def cexRay2 : Ray := ⟨⟨0, 0, 0⟩, ⟨1, 0, 0⟩, 0⟩

/-- The tree BvhNode::new builds from the counterexample scene. -/
def cexTree2 : BvhTree :=
  BvhTree.branch (BvhTree.leaf objA boxA) (BvhTree.leaf objB boxB)
    (Aabb.surroundingBox boxA boxB)

lemma cex_range0 : axisRange cexList 0 = 6 := by
  norm_num [axisRange, cexList, objA, objB, boxA, boxB, f32Max, Vec3.nth,
    min_def, max_def]

lemma cex_range1 : axisRange cexList 1 = 7 := by
  norm_num [axisRange, cexList, objA, objB, boxA, boxB, f32Max, Vec3.nth,
    min_def, max_def]

lemma cex_range2 : axisRange cexList 2 = 6 := by
  norm_num [axisRange, cexList, objA, objB, boxA, boxB, f32Max, Vec3.nth,
    min_def, max_def]

lemma cex_axis : chooseAxis cexList = 1 := by
  rw [chooseAxis, cex_range0, cex_range1, cex_range2]
  norm_num

lemma cex_sort : List.insertionSort
    (fun x y => midKeySum (chooseAxis cexList) x ≤ midKeySum (chooseAxis cexList) y)
    cexList = [objA, objB] := by
  simp only [cex_axis]
  show List.insertionSort (fun x y => midKeySum 1 x ≤ midKeySum 1 y) [objB, objA] =
    [objA, objB]
  norm_num [List.insertionSort, List.orderedInsert, midKeySum, objA, objB, boxA, boxB,
    Vec3.nth]

lemma cex_new : bvhNew cexList = some cexTree2 :=
  bvhNew_pair cexList objA objB boxA boxB cex_sort rfl rfl

lemma cex_gate_root : Aabb.hit (Aabb.surroundingBox boxA boxB) cexRay2 0 100 = true := by
  norm_num [Aabb.hit, Aabb.axisTest, Aabb.surroundingBox, Vec3.nth, fxDiv, fxMul,
    fxLt, fxLe, boxA, boxB, cexRay2, min_def, max_def]

lemma cex_gate_a : Aabb.hit boxA cexRay2 0 100 = true := by
  norm_num [Aabb.hit, Aabb.axisTest, Vec3.nth, fxDiv, fxMul, fxLt, fxLe, boxA, cexRay2]

lemma cex_gate_b : Aabb.hit boxB cexRay2 0 4 = true := by
  norm_num [Aabb.hit, Aabb.axisTest, Vec3.nth, fxDiv, fxMul, fxLt, fxLe, boxB, cexRay2]

lemma cex_hit_a : bvhHit (BvhTree.leaf objA boxA) cexRay2 0 100 = some recA := by
  rw [bvhHit, if_neg (by rw [cex_gate_a]; simp)]
  norm_num [objA]

lemma cex_hit_b : bvhHit (BvhTree.leaf objB boxB) cexRay2 0 recA.t = some recB := by
  have ht : recA.t = (4 : ℚ) := rfl
  rw [bvhHit, ht, if_neg (by rw [cex_gate_b]; simp)]
  norm_num [objB]

lemma cex_bvh : bvhHit cexTree2 cexRay2 0 100 = some recB := by
  rw [cexTree2, bvhHit, if_neg (by rw [cex_gate_root]; simp)]
  simp only [cex_hit_a, cex_hit_b]

lemma cex_list_hit : listHit cexList cexRay2 0 100 = some recA := by
  rw [listHit, cexList, listHitAux]
  have hb : objB.hit cexRay2 0 100 = some recB := by norm_num [objB]
  simp only [hb]
  rw [listHitAux]
  have ha : objA.hit cexRay2 0 recB.t = some recA := by
    have ht : recB.t = (4 : ℚ) := rfl
    rw [ht]
    norm_num [objA]
  simp only [ha]
  rw [listHitAux]

/-- C2 counterexample: on a two-object scene both of whose objects are first
hit at t = 4 by the same ray, BvhNode::new succeeds and, on the same ray and
interval, BVH traversal returns the hit of one object while List traversal
returns the hit of the other: the t values agree but the material identities
differ, refuting the claimed equality of (t, point, material identity). -/
theorem bvh_list_same_t_different_material :
    bvhNew cexList = some cexTree2 ∧
    bvhHit cexTree2 cexRay2 0 100 = some recB ∧
    listHit cexList cexRay2 0 100 = some recA ∧
    recB.t = recA.t ∧ recB.mat ≠ recA.mat :=
  ⟨cex_new, cex_bvh, cex_list_hit, rfl, by norm_num [recA, recB]⟩
